import Mathlib

/-!
# ransel: a shallow embedding of `src/ransel.cpp`

`ransel` picks files at random from a directory, optionally listing and copying them.
The embedding follows the source function by function:

* strings are `String`, inspected through `String.toList`;
* `unsigned int` is a `Nat` reduced modulo `2^32` where the source can leave the range,
  `int` is an `Int` wrapped into the signed 32-bit range, `std::size_t` is a `Nat`
  reduced modulo `2^64` where the source subtracts;
* `std::exit` is an `Except` error carrying the reason and the state at that moment;
* the filesystem, the working directory and the random generator are oracles (`Env`).
-/

namespace Ransel

/-! ## Data model -/

/-- The four callbacks a `Param` can point to (`callback_ptr`). -/
inductive Callback where
  | help
  | copy
  | list
  | count
  deriving DecidableEq

/-- Embeds `struct Param`: short alias, long name, whether a value is read, the value cell
(`defval`, both default and result) and the callback. -/
structure Param where
  alias_ : String
  full : String
  settable : Bool
  defval : Nat
  callback_ptr : Callback
  deriving DecidableEq

/-- Embeds `enum class Flag`. -/
inductive Flag where
  | none
  | terse
  | verbose
  deriving DecidableEq

/-- Every way the process ends other than `return 0` at the end of `main`. -/
inductive Exit where
  /-- Case `argc <= 1`: the hint is printed, `std::exit(0)`. -/
  | hint
  /-- Case `help_call`: the help message is printed, `std::exit(0)`. -/
  | help
  /-- positional argument exists but is not a directory, `std::exit(-1)`. -/
  | not_a_directory
  /-- positional argument does not exist, `std::exit(-1)`. -/
  | does_not_exist
  /-- Case `std::from_chars` reported an error on the argument after a short flag, `std::exit(-1)`. -/
  | decode_failed
  /-- a short value flag is the last argument, `std::exit(-1)`. -/
  | no_value
  /-- Case `trailing_int` found no digit at the end of a long flag, `std::exit(-1)`. -/
  | trailing_decode_failed
  /-- Case `dirname_src.empty()`, `std::exit(-1)`. -/
  | no_directory
  /-- Case `req_count == 0`, `std::exit(-1)`. -/
  | zero_count
  /-- Case `file_count == 0`, `std::exit(-1)`. -/
  | empty_directory
  /-- Case `fs::create_directory` did not create the directory, `std::exit(1)`. -/
  | create_failed
  /-- Case `index >= iters.size()` in the processing loop, `std::exit(-1)`. -/
  | out_of_bounds
  /-- Case `fs::copy` threw; the exception is not caught and the process is aborted. -/
  | copy_failed
  deriving DecidableEq

/-- The argument of `std::exit` for each reason; an abort is reported as 134. -/
def Exit.status : Exit → Int
  | .hint => 0
  | .help => 0
  | .create_failed => 1
  | .copy_failed => 134
  | _ => -1

/-- What is written to standard output, one item per `operator<<` group. -/
inductive Output where
  /-- the one-line hint printed when no argument is given. -/
  | hint
  /-- Case `help_message` followed by a newline. -/
  | help_message
  /-- a path followed by a newline. -/
  | line (path : String)
  /-- a newline alone. -/
  | blank
  deriving DecidableEq

/-- The collaborators the program calls: filesystem, working directory, random generator.
`rng k from to` is what the `k`-th call of `urand` draws for the range `from`, `to`. -/
structure Env where
  exists_ : String → Bool
  is_directory : String → Bool
  absolute : String → String
  regular_files : String → List String
  current_path : String
  preferred_separator : Char
  create_directory : String → Bool
  copy_ok : String → String → Bool
  rng : Nat → Nat → Nat → Nat

/-- The contract of `std::uniform_int_distribution`: for `from <= to` the draw lies in
`[from, to]`. Nothing is promised for `from > to`. -/
def Env.rng_in_range (env : Env) : Prop :=
  ∀ k a b : Nat, a ≤ b → a ≤ env.rng k a b ∧ env.rng k a b ≤ b

/-- Observable effects of a run, oldest first. `urand_calls` logs the arguments of every
call of `urand`; `selected` is the vector `indices` handed to the processing loop;
`processed` the indices whose loop body ran to its end. -/
structure Trace where
  stdout : List Output
  created : List String
  copied : List (String × String)
  urand_calls : List (Nat × Nat)
  selected : List Nat
  processed : List Nat
  deriving DecidableEq

/-- The trace of a run that has done nothing yet. -/
def Trace.empty : Trace := ⟨[], [], [], [], [], []⟩

/-! ## Utilities -/

/-- Embeds `urand(from, to)`: the next draw of the process-wide generator, as an `unsigned int`;
the call is logged. -/
def urand (env : Env) (a b : Nat) (t : Trace) : Nat × Trace :=
  (env.rng t.urand_calls.length a b % 2 ^ 32,
   { t with urand_calls := t.urand_calls ++ [(a, b)] })

/-- The loop of `starts_with` on the characters of `lhs` and `rhs`: `false` at the first
difference or when `lhs` ends first, `true` when `rhs` is exhausted. -/
def starts_with_chars : List Char → List Char → Bool
  | _, [] => true
  | [], _ :: _ => false
  | a :: lhs, b :: rhs => if a != b then false else starts_with_chars lhs rhs

/-- Embeds `starts_with(lhs, rhs)`. -/
def starts_with (lhs rhs : String) : Bool :=
  starts_with_chars lhs.toList rhs.toList

/-- The test `*e <= '9' && *e >= '0'`. -/
def is_decimal (e : Char) : Bool :=
  decide (e.toNat ≤ '9'.toNat) && decide (e.toNat ≥ '0'.toNat)

/-- A value of type `int` after an arithmetic operation: wrapped into `[-2^31, 2^31)`. -/
def wrap_int (x : Int) : Int :=
  (x + 2 ^ 31) % 2 ^ 32 - 2 ^ 31

/-- The `while` loop of `trailing_int`. The first argument holds the characters from `*e`
back to `*b` (the string reversed); `ret`, `mul`, `succ` are the locals. The source reads
`*e` before it tests `e >= b`; on a string with a non-digit character the loop stops
there, and `parse` only passes tokens starting with two dashes. -/
def trailing_int_loop : List Char → Int → Int → Bool → Int × Bool
  | [], ret, _, succ => (ret, succ)
  | e :: before, ret, mul, succ =>
    if is_decimal e then
      trailing_int_loop before
        (wrap_int (ret + wrap_int (((e.toNat : Int) - ('0'.toNat : Int)) * mul)))
        (wrap_int (mul * 10)) true
    else (ret, succ)

/-- Embeds `trailing_int(str)`: the `int` accumulator is converted to `unsigned int` on return. -/
def trailing_int (str : String) : Option Nat :=
  let r := trailing_int_loop str.toList.reverse 0 1 false
  if r.2 then some (r.1 % 2 ^ 32).toNat else none

/-- The number denoted by a list of decimal digit characters, most significant first. -/
def decimal_value (ds : List Char) : Nat :=
  ds.foldl (fun acc c => 10 * acc + (c.toNat - '0'.toNat)) 0

/-- Embeds `std::from_chars(first, last, value)` for `unsigned int` in base 10, by its
standard-library contract: the longest leading run of decimal digits is read (no sign,
no whitespace); an empty run is `errc::invalid_argument`, a value that does not fit is
`errc::result_out_of_range` (both `none`); otherwise the value, whatever follows the run. -/
def from_chars (next : String) : Option Nat :=
  let ds := next.toList.takeWhile is_decimal
  if ds.isEmpty then none
  else if decimal_value ds < 2 ^ 32 then some (decimal_value ds) else none

/-! ## Callbacks -/

/-- Embeds `help_call`: prints the help message and exits with status 0. -/
def help_call (_dummy1 : Param) (_dummy2 : Nat) : Except Exit Param :=
  .error Exit.help

/-- Embeds `copy_call`: `copy.defval = 1`. -/
def copy_call (copy : Param) (_dummy2 : Nat) : Except Exit Param :=
  .ok { copy with defval := 1 }

/-- Embeds `list_call`: `list.defval = 1`. -/
def list_call (list : Param) (_dummy2 : Nat) : Except Exit Param :=
  .ok { list with defval := 1 }

/-- Embeds `count_call`: `count.defval = val`. -/
def count_call (count : Param) (val : Nat) : Except Exit Param :=
  .ok { count with defval := val }

/-- Calling through `callback_ptr`. -/
def Callback.call : Callback → Param → Nat → Except Exit Param
  | .help => help_call
  | .copy => copy_call
  | .list => list_call
  | .count => count_call

/-! ## parse -/

/-- The state `parse` works on: the option table, `dirname`, the cursor `i`, and a log
`fired` of every callback invocation as (table slot, value passed), oldest first. -/
structure ParseState where
  params : List Param
  dirname : String
  i : Nat
  fired : List (Nat × Nat)
  deriving DecidableEq

/-- Result of (a part of) `parse`: the state reached, or the exit reason together with
the state at the moment of `std::exit`. -/
abbrev Parsed := Except (Exit × ParseState) ParseState

/-- Embeds `callback(param, value)` for the table slot `j`: the call is logged, the slot is
replaced by what the callback left in it. -/
def invoke (j : Nat) (param : Param) (value : Nat) (st : ParseState) : Parsed :=
  let st1 := { st with fired := st.fired ++ [(j, value)] }
  match param.callback_ptr.call param value with
  | .error e => .error (e, st1)
  | .ok p => .ok { st1 with params := st1.params.set j p }

/-- One iteration of the inner loop `for (j = 0; j < params_count; j++)`. -/
def match_param (argv : List String) (argument : String) (kind_of : Flag)
    (st : ParseState) (j : Nat) : Parsed :=
  match st.params[j]? with
  | none => .ok st
  | some param =>
    let is_alias := decide (argument = param.alias_)
    let is_fullname := starts_with argument param.full
    if is_alias || is_fullname then
      if !param.settable then
        invoke j param param.defval st
      else
        match kind_of with
        | .terse =>
          match argv[st.i + 1]? with
          | some next =>
            match from_chars next with
            | none => .error (Exit.decode_failed, st)
            | some value =>
              match invoke j param value st with
              | .error e => .error e
              | .ok st1 => .ok { st1 with i := st1.i + 1 }
          | none => .error (Exit.no_value, st)
        | .verbose =>
          match trailing_int argument with
          | some res => invoke j param res st
          | none => .error (Exit.trailing_decode_failed, st)
        | .none => .ok st
    else .ok st

/-- The inner loop from slot `j` on, `n` slots to go. -/
def scan_params (argv : List String) (argument : String) (kind_of : Flag) :
    Nat → Nat → ParseState → Parsed
  | 0, _, st => .ok st
  | n + 1, j, st =>
    match match_param argv argument kind_of st j with
    | .error e => .error e
    | .ok st1 => scan_params argv argument kind_of n (j + 1) st1

/-- The classification `kind_of` of an argument. -/
def kind_of (argument : String) : Flag :=
  if starts_with argument "--" then Flag.verbose
  else if starts_with argument "-" then Flag.terse else Flag.none

/-- The body of the outer loop for `argument = argv[i]`. -/
def parse_argument (env : Env) (argv : List String) (st : ParseState)
    (argument : String) : Parsed :=
  if kind_of argument = Flag.none then
    if env.exists_ argument then
      if env.is_directory argument then .ok { st with dirname := argument }
      else .error (Exit.not_a_directory, st)
    else .error (Exit.does_not_exist, st)
  else scan_params argv argument (kind_of argument) st.params.length 0 st

/-- The outer loop `for (i = 1; i < argc; i++)`, from the state `st` on. `fuel` bounds the
number of iterations; `argc - i` iterations are enough (`parse_loop_fuel`). -/
def parse_loop (env : Env) (argv : List String) : Nat → ParseState → Parsed
  | 0, st => .ok st
  | fuel + 1, st =>
    match argv[st.i]? with
    | none => .ok st
    | some argument =>
      match parse_argument env argv st argument with
      | .error e => .error e
      | .ok st1 => parse_loop env argv fuel { st1 with i := st1.i + 1 }

/-- Embeds `parse(params, params_count, argv, argc, dirname)` with `params_count` the length of
the table and `argc` the length of `argv`. -/
def parse (env : Env) (params : List Param) (argv : List String) (dirname : String) :
    Parsed :=
  parse_loop env argv argv.length { params := params, dirname := dirname, i := 1, fired := [] }

/-! ## main -/

/-- The option table `parameters` as `main` builds it. -/
def parameters : List Param :=
  [ { alias_ := "-h", full := "--help", settable := false, defval := 0,
      callback_ptr := Callback.help },
    { alias_ := "-c", full := "--copy", settable := false, defval := 0,
      callback_ptr := Callback.copy },
    { alias_ := "-l", full := "--list", settable := false, defval := 0,
      callback_ptr := Callback.list },
    { alias_ := "-C", full := "--count", settable := true, defval := 10,
      callback_ptr := Callback.count } ]

/-- The cell `parameters[k].defval` of a table (0 when the slot is missing). -/
def defval_at (params : List Param) (k : Nat) : Nat :=
  match params[k]? with
  | some p => p.defval
  | none => 0

/-- The loop `for (auto& index : indices) index = urand(1, hi)`: one draw per element. -/
def fill_indices (env : Env) (hi : Nat) : List Nat → Trace → List Nat × Trace
  | [], t => ([], t)
  | _ :: more, t =>
    let d := urand env 1 hi t
    let r := fill_indices env hi more d.2
    (d.1 :: r.1, r.2)

/-- Lines 91-108 of `main` after the emptiness test: `count`, the vector `indices` and
its filling. `std::vector<unsigned int>{ count }` is list-initialisation: a braced
initialiser selects the initializer-list constructor (as in `std::vector<int>{ 10 }`), so
the vector holds the single element `count` (narrowed to `unsigned int`), not `count`
elements. `count - 1` is computed in `std::size_t` and narrowed to `unsigned int` at the
call. -/
def select_indices (env : Env) (file_count req_count : Nat) (t : Trace) : List Nat × Trace :=
  let count := min file_count req_count
  let indices : List Nat := [count % 2 ^ 32]
  if file_count = 1 then
    (indices.set 0 0, t)
  else
    fill_indices env (((count + 2 ^ 64 - 1) % 2 ^ 64) % 2 ^ 32) indices t

/-- The loop writing the random name: `n` characters, each `urand('a', 'z')` narrowed to
`char`. -/
def random_name (env : Env) : Nat → Trace → List Char × Trace
  | 0, t => ([], t)
  | n + 1, t =>
    let d := urand env 'a'.toNat 'z'.toNat t
    let r := random_name env n d.2
    (Char.ofNat (d.1 % 256) :: r.1, r.2)

/-- Lines 112-122: the current path, a separator, 31 random characters (the first 31 of
the 32 appended) and a separator in the last place. -/
def make_destination (env : Env) (t : Trace) : String × Trace :=
  let r := random_name env 31 t
  (env.current_path ++ String.singleton env.preferred_separator
      ++ String.mk r.1 ++ String.singleton env.preferred_separator, r.2)

/-- The processing loop `for (auto& index : indices)` of lines 137-146. -/
def process (env : Env) (iters : List String) (destination : String) (copy list : Nat) :
    List Nat → Trace → Except (Exit × Trace) Trace
  | [], t => .ok t
  | index :: more, t =>
    if index ≥ iters.length then .error (Exit.out_of_bounds, t)
    else
      let path := iters.getD index ""
      if copy ≠ 0 ∧ env.copy_ok path destination = false then .error (Exit.copy_failed, t)
      else
        let t1 := if copy ≠ 0 then { t with copied := t.copied ++ [(path, destination)] } else t
        let t2 := if list ≠ 0 then { t1 with stdout := t1.stdout ++ [Output.line path] } else t1
        process env iters destination copy list more
          { t2 with processed := t2.processed ++ [index] }

/-- How a run ends: `exit = none` is `return 0` from `main`. -/
structure Outcome where
  exit : Option Exit
  trace : Trace
  deriving DecidableEq

/-- The exit status of the process. -/
def Outcome.status (o : Outcome) : Int :=
  match o.exit with
  | none => 0
  | some e => e.status

/-- Lines 81-149 of `main`: enumeration, selection, destination, processing. -/
def select (env : Env) (dirname : String) (req_count copy list : Nat) : Outcome :=
  let dir := env.absolute dirname
  let iters := env.regular_files dir
  let file_count := iters.length
  if file_count = 0 then ⟨some Exit.empty_directory, Trace.empty⟩
  else
    let s := select_indices env file_count req_count Trace.empty
    let t0 := { s.2 with selected := s.1 }
    let d := make_destination env t0
    if copy ≠ 0 ∧ env.create_directory d.1 = false then ⟨some Exit.create_failed, d.2⟩
    else
      let t1 := if copy ≠ 0 then { d.2 with created := d.2.created ++ [d.1] } else d.2
      match process env iters d.1 copy list s.1 t1 with
      | .error (e, t) => ⟨some e, t⟩
      | .ok t => ⟨none, { t with stdout := t.stdout ++ [Output.blank] }⟩

/-- The program: `main(argc, argv)` with `argc` the length of `argv`. -/
def main (env : Env) (argv : List String) : Outcome :=
  if argv.length ≤ 1 then
    ⟨some Exit.hint, { Trace.empty with stdout := [Output.hint] }⟩
  else
    match parse env parameters argv "" with
    | .error (Exit.help, _) =>
      ⟨some Exit.help, { Trace.empty with stdout := [Output.help_message] }⟩
    | .error (e, _) => ⟨some e, Trace.empty⟩
    | .ok st =>
      let copy := defval_at st.params 1
      let list := defval_at st.params 2
      let req_count := defval_at st.params 3
      if st.dirname.isEmpty then ⟨some Exit.no_directory, Trace.empty⟩
      else if req_count = 0 then ⟨some Exit.zero_count, Trace.empty⟩
      else select env st.dirname req_count copy list

/-! ## Vocabulary of the statements -/

/-- The option table with the four value cells `h`, `c`, `l`, `n`. -/
def table (h c l n : Nat) : List Param :=
  [ { alias_ := "-h", full := "--help", settable := false, defval := h,
      callback_ptr := Callback.help },
    { alias_ := "-c", full := "--copy", settable := false, defval := c,
      callback_ptr := Callback.copy },
    { alias_ := "-l", full := "--list", settable := false, defval := l,
      callback_ptr := Callback.list },
    { alias_ := "-C", full := "--count", settable := true, defval := n,
      callback_ptr := Callback.count } ]

/-- The maximal suffix of consecutive decimal-digit characters of a string. -/
def digit_suffix (str : String) : List Char :=
  (str.toList.reverse.takeWhile is_decimal).reverse

/-- A list of characters is a decimal numeral of `n`: non-empty, digits only, value `n`. -/
def is_numeral_of (ds : List Char) (n : Nat) : Prop :=
  ds ≠ [] ∧ (∀ c ∈ ds, is_decimal c = true) ∧ decimal_value ds = n

/-- The token selects the copy option: it is `-c` or has `--copy` as a prefix. -/
def is_copy_flag (t : String) : Bool :=
  decide (t = "-c") || starts_with t "--copy"

/-- The token selects the list option: it is `-l` or has `--list` as a prefix. -/
def is_list_flag (t : String) : Bool :=
  decide (t = "-l") || starts_with t "--list"

/-- A sample environment: every positional argument names a directory whose regular files
are `files`; directory creation and copies succeed; the generator draws the lower end of
a valid range and `stray` on a range with `from > to`, where nothing is promised. -/
def demo_env (files : List String) (stray : Nat) : Env :=
  { exists_ := fun _ => true
    is_directory := fun _ => true
    absolute := fun p => p
    regular_files := fun _ => files
    current_path := "/home/user"
    preferred_separator := '/'
    create_directory := fun _ => true
    copy_ok := fun _ _ => true
    rng := fun _ a b => if a ≤ b then a else stray }

/-- The parser's matching rule for one table entry: the argument equals the short alias,
or the long name is a prefix of the argument. -/
def matches_param (argument : String) (p : Param) : Bool :=
  decide (argument = p.alias_) || starts_with argument p.full

/-- The arguments the outer loop of `parse` takes as its `argument`, given the arguments
after the program name: every token except the one that follows a `-C` token, which is
consumed as its value. -/
def scanned_args : List String → List String
  | [] => []
  | [a] => [a]
  | a :: b :: rest =>
    if a = "-C" then a :: scanned_args rest else a :: scanned_args (b :: rest)

/-- The arguments treated as positional: scanned and not starting with a dash. -/
def positional_args (args : List String) : List String :=
  (scanned_args args).filter (fun t => decide (kind_of t = Flag.none))

/-- The arguments processed as flags: scanned and starting with a dash. -/
def flag_args (args : List String) : List String :=
  (scanned_args args).filter (fun t => decide (kind_of t ≠ Flag.none))

/-- The inner loop rewritten to stop at the first table entry that matches: the entry is
handled as in `match_param` and no later entry is looked at. -/
def scan_first (argv : List String) (argument : String) (kind_of : Flag) :
    Nat → Nat → ParseState → Parsed
  | 0, _, st => .ok st
  | n + 1, j, st =>
    match st.params[j]? with
    | none => scan_first argv argument kind_of n (j + 1) st
    | some param =>
      if matches_param argument param then match_param argv argument kind_of st j
      else scan_first argv argument kind_of n (j + 1) st

/-- The character is a lowercase letter `a` to `z`. -/
def is_lower_letter (c : Char) : Bool :=
  decide ('a'.toNat ≤ c.toNat) && decide (c.toNat ≤ 'z'.toNat)

/-! ## Arithmetic of the `int` accumulators -/

theorem wrap_int_modEq (x : Int) : wrap_int x ≡ x [ZMOD 2 ^ 32] := by
  unfold wrap_int Int.ModEq
  norm_num
  omega

theorem is_decimal_iff (c : Char) : is_decimal c = true ↔ 48 ≤ c.toNat ∧ c.toNat ≤ 57 := by
  unfold is_decimal
  have h9 : '9'.toNat = 57 := by decide
  have h0 : '0'.toNat = 48 := by decide
  simp only [h9, h0, Bool.and_eq_true, decide_eq_true_eq, ge_iff_le]
  exact and_comm

theorem decimal_value_append (xs : List Char) (c : Char) :
    decimal_value (xs ++ [c]) = 10 * decimal_value xs + (c.toNat - '0'.toNat) := by
  simp [decimal_value, List.foldl_append]

/-- The digits the loop of `trailing_int` consumes: the maximal run of decimal digits at
the end of the string, most significant first. -/
theorem trailing_int_loop_spec (l : List Char) :
    ∀ (ret mul : Int) (succ : Bool),
      (trailing_int_loop l ret mul succ).2 = (succ || !(l.takeWhile is_decimal).isEmpty) ∧
      (trailing_int_loop l ret mul succ).1 ≡
        ret + mul * (decimal_value (l.takeWhile is_decimal).reverse : Int) [ZMOD 2 ^ 32] := by
  induction l with
  | nil =>
    intro ret mul succ
    simp [trailing_int_loop, decimal_value, Int.ModEq]
  | cons e before ih =>
    intro ret mul succ
    by_cases he : is_decimal e = true
    · have hd := (is_decimal_iff e).1 he
      have h0 : '0'.toNat = 48 := by decide
      obtain ⟨ih2, ih1⟩ := ih (wrap_int (ret + wrap_int (((e.toNat : Int) - ('0'.toNat : Int)) * mul)))
        (wrap_int (mul * 10)) true
      have hstep : trailing_int_loop (e :: before) ret mul succ
          = trailing_int_loop before
              (wrap_int (ret + wrap_int (((e.toNat : Int) - ('0'.toNat : Int)) * mul)))
              (wrap_int (mul * 10)) true := by
        rw [trailing_int_loop, if_pos he]
      have htake : (List.takeWhile is_decimal (e :: before)).reverse
          = (List.takeWhile is_decimal before).reverse ++ [e] := by
        rw [List.takeWhile_cons, he]; simp
      rw [hstep, htake, decimal_value_append]
      refine ⟨by rw [ih2]; simp [List.takeWhile_cons, he], ?_⟩
      refine ih1.trans ?_
      generalize decimal_value (List.takeWhile is_decimal before).reverse = V
      have hcast : ((e.toNat - '0'.toNat : Nat) : Int) = (e.toNat : Int) - ('0'.toNat : Int) := by
        rw [h0]; omega
      have e1 : wrap_int (ret + wrap_int (((e.toNat : Int) - ('0'.toNat : Int)) * mul))
          ≡ ret + ((e.toNat : Int) - ('0'.toNat : Int)) * mul [ZMOD 2 ^ 32] :=
        (wrap_int_modEq _).trans ((Int.ModEq.refl ret).add (wrap_int_modEq _))
      have e2 : wrap_int (mul * 10) ≡ mul * 10 [ZMOD 2 ^ 32] := wrap_int_modEq _
      have e3 := e1.add (e2.mul (Int.ModEq.refl (V : Int)))
      refine e3.trans ?_
      have hval : ((10 * V + (e.toNat - '0'.toNat) : Nat) : Int)
          = 10 * (V : Int) + ((e.toNat : Int) - ('0'.toNat : Int)) := by
        rw [← hcast]; norm_cast
      rw [hval]
      have : ret + ((e.toNat : Int) - ('0'.toNat : Int)) * mul + mul * 10 * (V : Int)
          = ret + mul * (10 * (V : Int) + ((e.toNat : Int) - ('0'.toNat : Int))) := by ring
      rw [this]
    · simp only [Bool.not_eq_true] at he
      simp [trailing_int_loop, he, decimal_value, Int.ModEq]

/-- What `trailing_int` returns, in closed form. -/
theorem trailing_int_eq (str : String) :
    trailing_int str =
      if (digit_suffix str).isEmpty then none
      else some (decimal_value (digit_suffix str) % 2 ^ 32) := by
  obtain ⟨h2, h1⟩ := trailing_int_loop_spec str.toList.reverse 0 1 false
  unfold trailing_int digit_suffix
  generalize List.takeWhile is_decimal str.toList.reverse = T at h1 h2
  generalize trailing_int_loop str.toList.reverse 0 1 false = r at h1 h2
  cases T with
  | nil => simp [h2]
  | cons c T =>
    have h3 : r.1 % 2 ^ 32 = ((decimal_value (c :: T).reverse : Nat) : Int) % 2 ^ 32 := by
      have := h1
      unfold Int.ModEq at this
      rw [this]; simp
    have h4 : (r.1 % 2 ^ 32).toNat = decimal_value (c :: T).reverse % 2 ^ 32 := by
      rw [h3]; norm_cast
    simp only [h2, h4]
    simp

/-! ## Decimal numerals -/

theorem digitChar_spec (k : Nat) (hk : k < 10) :
    is_decimal (Nat.digitChar k) = true ∧ (Nat.digitChar k).toNat - '0'.toNat = k := by
  interval_cases k <;> decide

theorem toDigitsCore_spec (fuel : Nat) :
    ∀ (n : Nat) (ds : List Char), n < fuel →
      ∃ L, Nat.toDigitsCore 10 fuel n ds = L ++ ds ∧ is_numeral_of L n := by
  induction fuel with
  | zero => intro n ds h; omega
  | succ fuel ih =>
    intro n ds h
    obtain ⟨hd1, hd2⟩ := digitChar_spec (n % 10) (Nat.mod_lt _ (by decide))
    by_cases h0 : n / 10 = 0
    · refine ⟨[Nat.digitChar (n % 10)], ?_, by simp, ?_, ?_⟩
      · simp [Nat.toDigitsCore, h0]
      · intro c hc
        simp only [List.mem_singleton] at hc
        rw [hc]; exact hd1
      · have := decimal_value_append [] (Nat.digitChar (n % 10))
        simp only [List.nil_append] at this
        rw [this, hd2]
        simp only [decimal_value, List.foldl_nil]
        omega
    · have hlt : n / 10 < fuel := by omega
      obtain ⟨L, hL, hne, hall, hval⟩ := ih (n / 10) (Nat.digitChar (n % 10) :: ds) hlt
      refine ⟨L ++ [Nat.digitChar (n % 10)], ?_, by simp, ?_, ?_⟩
      · simp [Nat.toDigitsCore, h0, hL]
      · intro c hc
        rcases List.mem_append.1 hc with hc | hc
        · exact hall c hc
        · simp only [List.mem_singleton] at hc
          rw [hc]; exact hd1
      · rw [decimal_value_append, hd2, hval]
        omega

theorem toString_numeral (v : Nat) : is_numeral_of (toString v).toList v := by
  obtain ⟨L, hL, h⟩ := toDigitsCore_spec (v + 1) v [] (Nat.lt_succ_self v)
  have : (toString v).toList = L := by
    show Nat.toDigits 10 v = L
    unfold Nat.toDigits
    rw [hL, List.append_nil]
  rw [this]; exact h

theorem takeWhile_append_stop (p : Char → Bool) (xs ys : List Char)
    (hx : ∀ c ∈ xs, p c = true) (hy : ∀ c, ys.head? = some c → p c = false) :
    (xs ++ ys).takeWhile p = xs := by
  induction xs with
  | nil =>
    cases ys with
    | nil => rfl
    | cons y ys => simp [List.takeWhile_cons, hy y rfl]
  | cons x xs ih =>
    have hx1 : p x = true := hx x (List.mem_cons_self _ _)
    simp only [List.cons_append, List.takeWhile_cons, hx1, if_true]
    rw [ih (fun c hc => hx c (List.mem_cons_of_mem _ hc))]

/-- The function `from_chars` reads a decimal numeral back when the value fits `unsigned int`. -/
theorem from_chars_numeral (s : String) (v : Nat) (h : is_numeral_of s.toList v)
    (hv : v < 2 ^ 32) : from_chars s = some v := by
  obtain ⟨hne, hall, hval⟩ := h
  have ht : s.toList.takeWhile is_decimal = s.toList := by
    have := takeWhile_append_stop is_decimal s.toList [] hall (by simp)
    simpa using this
  unfold from_chars
  simp only [ht, hval]
  cases hs : s.toList with
  | nil => exact absurd hs hne
  | cons c cs =>
    have hv2 : v < 4294967296 := by norm_num at hv; exact hv
    simp [hv2]

/-- The digit suffix of a prefix without trailing digit followed by a numeral is the
numeral. -/
theorem digit_suffix_append (pre s : String) (v : Nat) (h : is_numeral_of s.toList v)
    (hp : ∀ c, pre.toList.getLast? = some c → is_decimal c = false) :
    digit_suffix (pre ++ s) = s.toList := by
  obtain ⟨_, hall, _⟩ := h
  unfold digit_suffix
  have : (pre ++ s).toList.reverse = s.toList.reverse ++ pre.toList.reverse := by
    simp [String.toList]
  rw [this, takeWhile_append_stop is_decimal _ _ (fun c hc => hall c (List.mem_reverse.1 hc))
    (by intro c hc; rw [List.head?_reverse] at hc; exact hp c hc), List.reverse_reverse]

/-- The function `trailing_int` reads the numeral at the end of a long flag back when it fits. -/
theorem trailing_int_numeral (pre s : String) (v : Nat) (h : is_numeral_of s.toList v)
    (hp : ∀ c, pre.toList.getLast? = some c → is_decimal c = false) (hv : v < 2 ^ 32) :
    trailing_int (pre ++ s) = some v := by
  rw [trailing_int_eq, digit_suffix_append pre s v h hp]
  obtain ⟨hne, _, hval⟩ := h
  rw [hval, Nat.mod_eq_of_lt hv]
  cases hs : s.toList with
  | nil => exact absurd hs hne
  | cons c cs => simp

/-! ## Matching an argument against the option table -/

theorem starts_with_chars_iff (lhs rhs : List Char) :
    starts_with_chars lhs rhs = true ↔ ∃ r, lhs = rhs ++ r := by
  induction rhs generalizing lhs with
  | nil => simp [starts_with_chars]
  | cons b rhs ih =>
    cases lhs with
    | nil => simp [starts_with_chars]
    | cons a lhs =>
      by_cases hab : a = b
      · subst hab
        simp [starts_with_chars, ih]
      · simp [starts_with_chars, hab]

theorem starts_with_iff (lhs rhs : String) :
    starts_with lhs rhs = true ↔ ∃ r, lhs.toList = rhs.toList ++ r := by
  unfold starts_with
  exact starts_with_chars_iff _ _

theorem parameters_eq_table : parameters = table 0 0 0 10 := rfl

theorem parse_argument_help (env : Env) (argv : List String) (st : ParseState) (a : String)
    (h c l n : Nat) (hst : st.params = table h c l n)
    (ha : a = "-h" ∨ starts_with a "--help" = true) :
    parse_argument env argv st a
      = .error (Exit.help, { st with fired := st.fired ++ [(0, h)] }) := by
  rcases ha with ha | ha
  · subst ha
    simp [parse_argument, kind_of, starts_with, starts_with_chars, scan_params, match_param,
      hst, table, invoke, Callback.call, help_call]
  · obtain ⟨r, hr⟩ := (starts_with_iff _ _).1 ha
    simp only [String.toList] at hr
    simp [parse_argument, kind_of, starts_with, starts_with_chars, scan_params, match_param,
      hst, table, invoke, Callback.call, help_call, hr, String.ext_iff]

theorem parse_argument_copy (env : Env) (argv : List String) (st : ParseState) (a : String)
    (h c l n : Nat) (hst : st.params = table h c l n)
    (ha : a = "-c" ∨ starts_with a "--copy" = true) :
    parse_argument env argv st a
      = .ok { st with params := table h 1 l n, fired := st.fired ++ [(1, c)] } := by
  rcases ha with ha | ha
  · subst ha
    simp [parse_argument, kind_of, starts_with, starts_with_chars, scan_params, match_param,
      hst, table, invoke, Callback.call, copy_call]
  · obtain ⟨r, hr⟩ := (starts_with_iff _ _).1 ha
    simp only [String.toList] at hr
    simp [parse_argument, kind_of, starts_with, starts_with_chars, scan_params, match_param,
      hst, table, invoke, Callback.call, copy_call, hr, String.ext_iff]

theorem parse_argument_list (env : Env) (argv : List String) (st : ParseState) (a : String)
    (h c l n : Nat) (hst : st.params = table h c l n)
    (ha : a = "-l" ∨ starts_with a "--list" = true) :
    parse_argument env argv st a
      = .ok { st with params := table h c 1 n, fired := st.fired ++ [(2, l)] } := by
  rcases ha with ha | ha
  · subst ha
    simp [parse_argument, kind_of, starts_with, starts_with_chars, scan_params, match_param,
      hst, table, invoke, Callback.call, list_call]
  · obtain ⟨r, hr⟩ := (starts_with_iff _ _).1 ha
    simp only [String.toList] at hr
    simp [parse_argument, kind_of, starts_with, starts_with_chars, scan_params, match_param,
      hst, table, invoke, Callback.call, list_call, hr, String.ext_iff]

theorem parse_argument_short_count (env : Env) (argv : List String) (st : ParseState)
    (h c l n : Nat) (hst : st.params = table h c l n) :
    parse_argument env argv st "-C"
      = match argv[st.i + 1]? with
        | none => .error (Exit.no_value, st)
        | some next =>
          match from_chars next with
          | none => .error (Exit.decode_failed, st)
          | some value =>
            .ok { st with params := table h c l value, fired := st.fired ++ [(3, value)],
                          i := st.i + 1 } := by
  cases hn : argv[st.i + 1]? with
  | none =>
    simp [parse_argument, kind_of, starts_with, starts_with_chars, scan_params, match_param,
      hst, table, hn]
  | some next =>
    cases hv : from_chars next with
    | none =>
      simp [parse_argument, kind_of, starts_with, starts_with_chars, scan_params, match_param,
        hst, table, hn, hv]
    | some value =>
      simp [parse_argument, kind_of, starts_with, starts_with_chars, scan_params, match_param,
        hst, table, hn, hv, invoke, Callback.call, count_call]

theorem parse_argument_long_count (env : Env) (argv : List String) (st : ParseState)
    (a : String) (h c l n : Nat) (hst : st.params = table h c l n)
    (ha : starts_with a "--count" = true) :
    parse_argument env argv st a
      = match trailing_int a with
        | none => .error (Exit.trailing_decode_failed, st)
        | some res =>
          .ok { st with params := table h c l res, fired := st.fired ++ [(3, res)] } := by
  obtain ⟨r, hr⟩ := (starts_with_iff _ _).1 ha
  simp only [String.toList] at hr
  cases hv : trailing_int a with
  | none =>
    simp [parse_argument, kind_of, starts_with, starts_with_chars, scan_params, match_param,
      hst, table, hv, hr, String.ext_iff]
  | some res =>
    simp [parse_argument, kind_of, starts_with, starts_with_chars, scan_params, match_param,
      hst, table, hv, hr, String.ext_iff, invoke, Callback.call, count_call]

theorem parse_argument_unknown (env : Env) (argv : List String) (st : ParseState)
    (a : String) (h c l n : Nat) (hst : st.params = table h c l n)
    (hk : kind_of a ≠ Flag.none)
    (h0 : a ≠ "-h") (h0f : starts_with a "--help" = false)
    (h1 : a ≠ "-c") (h1f : starts_with a "--copy" = false)
    (h2 : a ≠ "-l") (h2f : starts_with a "--list" = false)
    (h3 : a ≠ "-C") (h3f : starts_with a "--count" = false) :
    parse_argument env argv st a = .ok st := by
  simp [parse_argument, hk, scan_params, match_param, hst, table, h0, h0f, h1, h1f, h2, h2f,
    h3, h3f]

theorem parse_argument_positional (env : Env) (argv : List String) (st : ParseState)
    (a : String) (hk : kind_of a = Flag.none) :
    parse_argument env argv st a
      = if env.exists_ a then
          if env.is_directory a then .ok { st with dirname := a }
          else .error (Exit.not_a_directory, st)
        else .error (Exit.does_not_exist, st) := by
  simp [parse_argument, hk]

theorem copy_flag_facts (a : String) (ha : is_copy_flag a = true) :
    is_list_flag a = false ∧ kind_of a ≠ Flag.none ∧ a ≠ "-h" ∧ starts_with a "--help" = false
      ∧ a ≠ "-C" ∧ starts_with a "--count" = false := by
  unfold is_copy_flag at ha
  simp only [Bool.or_eq_true, decide_eq_true_eq] at ha
  rcases ha with ha | ha
  · subst ha; decide
  · obtain ⟨r, hr⟩ := (starts_with_iff _ _).1 ha
    simp only [String.toList] at hr
    simp [is_list_flag, kind_of, starts_with, starts_with_chars, hr, String.ext_iff]

theorem list_flag_facts (a : String) (ha : is_list_flag a = true) :
    is_copy_flag a = false ∧ kind_of a ≠ Flag.none ∧ a ≠ "-h" ∧ starts_with a "--help" = false
      ∧ a ≠ "-C" ∧ starts_with a "--count" = false := by
  unfold is_list_flag at ha
  simp only [Bool.or_eq_true, decide_eq_true_eq] at ha
  rcases ha with ha | ha
  · subst ha; decide
  · obtain ⟨r, hr⟩ := (starts_with_iff _ _).1 ha
    simp only [String.toList] at hr
    simp [is_copy_flag, kind_of, starts_with, starts_with_chars, hr, String.ext_iff]

theorem long_count_facts (a : String) (ha : starts_with a "--count" = true) :
    is_copy_flag a = false ∧ is_list_flag a = false ∧ kind_of a = Flag.verbose := by
  obtain ⟨r, hr⟩ := (starts_with_iff _ _).1 ha
  simp only [String.toList] at hr
  simp [is_copy_flag, is_list_flag, kind_of, starts_with, starts_with_chars, hr, String.ext_iff]

/-- An argument `from_chars` accepts begins with a decimal digit: it is positional. -/
theorem from_chars_facts (a : String) (v : Nat) (ha : from_chars a = some v) :
    is_copy_flag a = false ∧ is_list_flag a = false ∧ kind_of a = Flag.none := by
  unfold from_chars at ha
  cases hd : a.data with
  | nil => simp [String.toList, hd] at ha
  | cons x xs =>
    by_cases hx : is_decimal x = true
    · have hx2 := (is_decimal_iff x).1 hx
      have hne : x ≠ '-' := by
        intro h; rw [h] at hx2; revert hx2; decide
      simp [is_copy_flag, is_list_flag, kind_of, starts_with, starts_with_chars, hd,
        String.ext_iff, hne]
    · simp [String.toList, hd, List.takeWhile_cons, hx] at ha

/-- One iteration of the outer loop on the fixed option table, when it does not exit. -/
theorem parse_argument_step (env : Env) (argv : List String) (st st1 : ParseState)
    (a : String) (h c l n : Nat) (hst : st.params = table h c l n)
    (hok : parse_argument env argv st a = .ok st1) :
    (∃ n1, st1.params = table h (if is_copy_flag a then 1 else c)
        (if is_list_flag a then 1 else l) n1) ∧
    (st1.i = st.i ∨
      (st1.i = st.i + 1 ∧ a = "-C" ∧
        ∃ next v, argv[st.i + 1]? = some next ∧ from_chars next = some v)) ∧
    st1.dirname = (if kind_of a = Flag.none then a else st.dirname) := by
  by_cases hk : kind_of a = Flag.none
  · have hc : is_copy_flag a = false := by
      by_contra hcon
      exact (copy_flag_facts a (by simpa using hcon)).2.1 hk
    have hl : is_list_flag a = false := by
      by_contra hcon
      exact (list_flag_facts a (by simpa using hcon)).2.1 hk
    rw [parse_argument_positional env argv st a hk] at hok
    by_cases he : env.exists_ a = true <;> by_cases hd : env.is_directory a = true <;>
      simp [he, hd] at hok
    subst hok
    simp [hc, hl, hk, hst]
  · by_cases h0 : a = "-h" ∨ starts_with a "--help" = true
    · rw [parse_argument_help env argv st a h c l n hst h0] at hok
      simp at hok
    · by_cases h1 : is_copy_flag a = true
      · have hf := copy_flag_facts a h1
        rw [parse_argument_copy env argv st a h c l n hst (by simpa [is_copy_flag] using h1)]
          at hok
        simp only [Except.ok.injEq] at hok
        subst hok
        simp [h1, hf.1, hk]
      · by_cases h2 : is_list_flag a = true
        · have hf := list_flag_facts a h2
          rw [parse_argument_list env argv st a h c l n hst (by simpa [is_list_flag] using h2)]
            at hok
          simp only [Except.ok.injEq] at hok
          subst hok
          simp [h2, hf.1, hk]
        · by_cases h3 : a = "-C"
          · subst h3
            rw [parse_argument_short_count env argv st h c l n hst] at hok
            cases hn : argv[st.i + 1]? with
            | none => simp [hn] at hok
            | some next =>
              cases hv : from_chars next with
              | none => simp [hn, hv] at hok
              | some value =>
                simp only [hn, hv, Except.ok.injEq] at hok
                subst hok
                simp [h1, h2, hk, hn, hv]
          · by_cases h4 : starts_with a "--count" = true
            · have hf := long_count_facts a h4
              rw [parse_argument_long_count env argv st a h c l n hst h4] at hok
              cases hv : trailing_int a with
              | none => simp [hv] at hok
              | some res =>
                simp only [hv, Except.ok.injEq] at hok
                subst hok
                simp [h1, h2, hk]
            · simp only [not_or, Bool.not_eq_true] at h0
              simp only [is_copy_flag, is_list_flag, Bool.or_eq_true, decide_eq_true_eq, not_or,
                Bool.not_eq_true] at h1 h2
              simp only [Bool.not_eq_true] at h4
              rw [parse_argument_unknown env argv st a h c l n hst hk h0.1 h0.2 h1.1 h1.2
                h2.1 h2.2 h3 h4] at hok
              simp only [Except.ok.injEq] at hok
              subst hok
              simp [is_copy_flag, is_list_flag, h1, h2, hk, hst]

/-! ## The outer loop -/

theorem invoke_i (j : Nat) (param : Param) (value : Nat) (st st1 : ParseState)
    (h : invoke j param value st = .ok st1) : st1.i = st.i := by
  unfold invoke at h
  cases hc : param.callback_ptr.call param value with
  | error e => simp [hc] at h
  | ok p =>
    simp only [hc, Except.ok.injEq] at h
    subst h; rfl

theorem match_param_i (argv : List String) (argument : String) (k : Flag)
    (st st1 : ParseState) (j : Nat) (h : match_param argv argument k st j = .ok st1) :
    st.i ≤ st1.i := by
  unfold match_param at h
  split at h
  · simp only [Except.ok.injEq] at h; subst h; exact le_refl _
  · rename_i param hp
    simp only at h
    split at h
    · split at h
      · exact le_of_eq (invoke_i _ _ _ _ _ h).symm
      · split at h
        · split at h
          · split at h
            · simp at h
            · rename_i value hv
              cases hinv : invoke j param value st with
              | error e => simp [hinv] at h
              | ok st2 =>
                simp only [hinv, Except.ok.injEq] at h
                subst h
                have := invoke_i _ _ _ _ _ hinv
                simp only
                omega
          · simp at h
        · split at h
          · exact le_of_eq (invoke_i _ _ _ _ _ h).symm
          · simp at h
        · simp only [Except.ok.injEq] at h; subst h; exact le_refl _
    · simp only [Except.ok.injEq] at h; subst h; exact le_refl _

theorem scan_params_i (argv : List String) (argument : String) (k : Flag) (n : Nat) :
    ∀ (j : Nat) (st st1 : ParseState),
      scan_params argv argument k n j st = .ok st1 → st.i ≤ st1.i := by
  induction n with
  | zero =>
    intro j st st1 h
    simp only [scan_params, Except.ok.injEq] at h
    subst h; exact le_refl _
  | succ n ih =>
    intro j st st1 h
    unfold scan_params at h
    cases hm : match_param argv argument k st j with
    | error e => simp [hm] at h
    | ok st2 =>
      simp only [hm] at h
      exact le_trans (match_param_i _ _ _ _ _ _ hm) (ih _ _ _ h)

theorem parse_argument_i (env : Env) (argv : List String) (st st1 : ParseState)
    (a : String) (h : parse_argument env argv st a = .ok st1) : st.i ≤ st1.i := by
  unfold parse_argument at h
  split at h
  · split at h
    · split at h
      · simp only [Except.ok.injEq] at h; subst h; exact le_refl _
      · simp at h
    · simp at h
  · exact scan_params_i _ _ _ _ _ _ _ h

/-- Once `fuel` covers the arguments still ahead, more fuel changes nothing: the loop of
`parse` has run to its end. -/
theorem parse_loop_fuel (env : Env) (argv : List String) :
    ∀ (fuel : Nat) (st : ParseState), argv.length ≤ st.i + fuel →
      parse_loop env argv (fuel + 1) st = parse_loop env argv fuel st := by
  intro fuel
  induction fuel with
  | zero =>
    intro st h
    have : argv[st.i]? = none := List.getElem?_eq_none (by omega)
    simp [parse_loop, this]
  | succ fuel ih =>
    intro st h
    rw [parse_loop, parse_loop]
    cases ha : argv[st.i]? with
    | none => rfl
    | some a =>
      simp only
      cases hp : parse_argument env argv st a with
      | error e => rfl
      | ok st1 =>
        have hi := parse_argument_i env argv st st1 a hp
        exact ih _ (by simp only; omega)

/-- The fuel `parse` gives its loop is enough: any larger amount yields the same result. -/
theorem parse_fuel_enough (env : Env) (params : List Param) (argv : List String)
    (dirname : String) (k : Nat) :
    parse_loop env argv (argv.length + k)
        { params := params, dirname := dirname, i := 1, fired := [] }
      = parse env params argv dirname := by
  induction k with
  | zero => rfl
  | succ k ih =>
    rw [← ih, ← Nat.add_assoc]
    exact parse_loop_fuel env argv (argv.length + k) _ (by simp only; omega)

theorem drop_of_getElem? (argv : List String) (i : Nat) (a : String)
    (h : argv[i]? = some a) : argv.drop i = a :: argv.drop (i + 1) := by
  induction argv generalizing i with
  | nil => simp at h
  | cons x xs ih =>
    cases i with
    | zero => simp at h; simp [h]
    | succ i =>
      simp only [List.getElem?_cons_succ] at h
      simpa using ih i h

/-- On the fixed option table a completed `parse` loop leaves the help cell alone, sets
the copy (list) cell to 1 when a copy (list) flag lies ahead and leaves it alone
otherwise. -/
theorem parse_loop_flags (env : Env) (argv : List String) :
    ∀ (fuel : Nat) (st st1 : ParseState) (h c l n : Nat), st.params = table h c l n →
      parse_loop env argv fuel st = .ok st1 → argv.length ≤ st.i + fuel →
      ∃ n1, st1.params = table h (if (argv.drop st.i).any is_copy_flag then 1 else c)
        (if (argv.drop st.i).any is_list_flag then 1 else l) n1 := by
  intro fuel
  induction fuel with
  | zero =>
    intro st st1 h c l n hst hok hlen
    simp only [parse_loop, Except.ok.injEq] at hok
    subst hok
    have : argv.drop st.i = [] := List.drop_eq_nil_of_le (by omega)
    exact ⟨n, by simp [this, hst]⟩
  | succ fuel ih =>
    intro st st1 h c l n hst hok hlen
    rw [parse_loop] at hok
    cases ha : argv[st.i]? with
    | none =>
      simp only [ha, Except.ok.injEq] at hok
      subst hok
      have hge : argv.length ≤ st.i := List.getElem?_eq_none_iff.1 ha
      have : argv.drop st.i = [] := List.drop_eq_nil_of_le hge
      exact ⟨n, by simp [this, hst]⟩
    | some a =>
      simp only [ha] at hok
      cases hp : parse_argument env argv st a with
      | error e => simp [hp] at hok
      | ok st2 =>
        simp only [hp] at hok
        obtain ⟨⟨n2, hst2⟩, hi, _⟩ := parse_argument_step env argv st st2 a h c l n hst hp
        have hdrop := drop_of_getElem? argv st.i a ha
        rcases hi with hi | ⟨hi, haC, next, v, hnext, hv⟩
        · obtain ⟨n1, h1⟩ := ih { st2 with i := st2.i + 1 } st1 h _ _ n2 hst2 hok
            (by simp only; omega)
          refine ⟨n1, ?_⟩
          rw [h1, hdrop]
          simp only [hi, List.any_cons]
          by_cases hca : is_copy_flag a = true <;> by_cases hla : is_list_flag a = true <;>
            simp [hca, hla]
        · obtain ⟨n1, h1⟩ := ih { st2 with i := st2.i + 1 } st1 h _ _ n2 hst2 hok
            (by simp only; omega)
          have hdrop2 := drop_of_getElem? argv (st.i + 1) next hnext
          have hf := from_chars_facts next v hv
          refine ⟨n1, ?_⟩
          rw [h1, hdrop, hdrop2]
          subst haC
          have hc1 : is_copy_flag "-C" = false := by decide
          have hl1 : is_list_flag "-C" = false := by decide
          simp only [hi, List.any_cons, hf.1, hf.2.1, hc1, hl1, Bool.false_or]
          simp

/-! ## Selection (lines 91-108 and the processing loop) -/

theorem demo_env_rng_in_range (files : List String) (stray : Nat) :
    (demo_env files stray).rng_in_range := by
  intro k a b hab
  simp [demo_env, hab]

theorem select_indices_length (env : Env) (n req : Nat) (t : Trace) :
    (select_indices env n req t).1.length = 1 := by
  unfold select_indices
  by_cases h : n = 1
  · simp [h]
  · simp [h, fill_indices]

/-- C1 (behaviour of the code): the vector `indices` is list-initialised with the single
element `count`, so the processing loop always handles exactly one selection, whatever
`min(n, requestedCount)` is; with 3 files and the default count 10 one index is selected
and processed, not 3. -/
theorem C1_single_selection :
    (∀ (env : Env) (n req : Nat) (t : Trace), (select_indices env n req t).1.length = 1) ∧
    (main (demo_env ["a", "b", "c"] 0) ["ransel", "d"]).trace.selected = [1] ∧
    (main (demo_env ["a", "b", "c"] 0) ["ransel", "d"]).trace.processed = [1] ∧
    min ((demo_env ["a", "b", "c"] 0).regular_files "d").length 10 = 3 := by
  refine ⟨select_indices_length, ?_, ?_, ?_⟩ <;> decide

/-- C2 (counterexample): with 2 files and requestedCount 1 the selection count is 1, the
range `[1, selectionCount-1]` is empty, and the index the selector produces is outside it
although the generator keeps its contract. -/
theorem C2_counterexample :
    (demo_env ["a", "b"] 7).rng_in_range ∧
    ∃ idx ∈ (select_indices (demo_env ["a", "b"] 7) 2 1 Trace.empty).1,
      ¬ (1 ≤ idx ∧ idx ≤ min 2 1 - 1) :=
  ⟨demo_env_rng_in_range _ _, 7, by decide, by decide⟩

/-- C2 (amended): for more than one file and a requested count of at least 2 (an
`unsigned int`), every selection index lies in `[1, selectionCount-1]` with
`selectionCount = min(n, requestedCount)`, when the generator keeps its contract. -/
theorem C2_index_range (env : Env) (n req : Nat) (t : Trace) (hrng : env.rng_in_range)
    (hn : 1 < n) (hreq : 2 ≤ req) (hu : req < 2 ^ 32) :
    ∀ idx ∈ (select_indices env n req t).1, 1 ≤ idx ∧ idx ≤ min n req - 1 := by
  have hmin : 2 ≤ min n req := le_min hn hreq
  have hle : min n req ≤ req := min_le_right _ _
  have hu2 : req < 4294967296 := by norm_num at hu; exact hu
  have hhi : ((min n req + 2 ^ 64 - 1) % 2 ^ 64) % 2 ^ 32 = min n req - 1 := by
    norm_num
    omega
  have hne : n ≠ 1 := by omega
  intro idx hidx
  unfold select_indices at hidx
  simp only [hne, if_false, hhi, fill_indices, urand, List.mem_singleton] at hidx
  obtain ⟨h1, h2⟩ := hrng t.urand_calls.length 1 (min n req - 1) (by omega)
  have hlt : env.rng t.urand_calls.length 1 (min n req - 1) < 2 ^ 32 := by
    norm_num; omega
  rw [Nat.mod_eq_of_lt hlt] at hidx
  rw [hidx]
  exact ⟨h1, h2⟩

/-- C2 (witness): 3 files and requestedCount 10; the one index drawn is 1, inside
`[1, 2]`. -/
theorem C2_index_range_witness :
    (demo_env ["a", "b", "c"] 0).rng_in_range ∧
    (select_indices (demo_env ["a", "b", "c"] 0) 3 10 Trace.empty).1 = [1] ∧
    (1 ≤ 1 ∧ 1 ≤ min 3 10 - 1) :=
  ⟨demo_env_rng_in_range _ _, by decide,
   C2_index_range (demo_env ["a", "b", "c"] 0) 3 10 Trace.empty (demo_env_rng_in_range _ _)
    (by decide) (by decide) (by decide) 1 (by decide)⟩

/-- C3 (behaviour of the code): with 2 files and `-C 1` the selector calls `urand(1, 0)`;
the generator, which keeps its contract on valid ranges, may answer 7, and the run takes
the out-of-bounds branch and exits with status -1. -/
theorem C3_out_of_bounds_reached :
    (demo_env ["a", "b"] 7).rng_in_range ∧
    (main (demo_env ["a", "b"] 7) ["ransel", "-C", "1", "d"]).exit = some Exit.out_of_bounds ∧
    (main (demo_env ["a", "b"] 7) ["ransel", "-C", "1", "d"]).trace.selected = [7] ∧
    (main (demo_env ["a", "b"] 7) ["ransel", "-C", "1", "d"]).status = -1 := by
  refine ⟨demo_env_rng_in_range _ _, ?_, ?_, ?_⟩ <;> decide

/-- C4 (behaviour of the code): only `file_count == 1` is special-cased; with more than
one file and requestedCount 1 the selector calls `urand(1, 0)`, an empty range. -/
theorem C4_empty_range_call :
    (∀ (env : Env) (n : Nat) (t : Trace), 1 < n →
      (select_indices env n 1 t).2.urand_calls = t.urand_calls ++ [(1, 0)]) ∧
    (main (demo_env ["a", "b"] 1) ["ransel", "-C", "1", "d"]).trace.urand_calls.head?
      = some (1, 0) := by
  refine ⟨?_, by decide⟩
  intro env n t hn
  have hne : n ≠ 1 := by omega
  have hmin : min n 1 = 1 := by omega
  simp [select_indices, hne, hmin, fill_indices, urand]

/-- C5 (behaviour of the code): the option table is built with the copy and list cells at
0, and parsing a command line without copy or list flag leaves both at 0: neither feature
is on by default (the help text says both are enabled by default). -/
theorem C5_defaults_are_zero :
    defval_at parameters 1 = 0 ∧ defval_at parameters 2 = 0 ∧
    parse (demo_env [] 0) parameters ["ransel", "d"] ""
      = .ok { params := parameters, dirname := "d", i := 2, fired := [] } :=
  ⟨by decide, by decide, rfl⟩

/-! ## Parsing the count option -/

theorem takeWhile_eq_nil_of_head (p : Char → Bool) (l : List Char)
    (h : ∀ c, l.head? = some c → p c = false) : l.takeWhile p = [] := by
  cases l with
  | nil => rfl
  | cons x xs => simp [List.takeWhile_cons, h x rfl]

theorem digit_suffix_nil_iff (str : String) :
    digit_suffix str = [] ↔ ∀ c, str.toList.getLast? = some c → is_decimal c = false := by
  unfold digit_suffix
  rw [List.reverse_eq_nil_iff]
  constructor
  · intro h c hc
    rw [← List.head?_reverse] at hc
    cases hr : str.toList.reverse with
    | nil => rw [hr] at hc; simp at hc
    | cons x xs =>
      rw [hr] at hc h
      simp only [List.head?_cons, Option.some.injEq] at hc
      subst hc
      by_contra hx
      simp only [Bool.not_eq_false] at hx
      simp [List.takeWhile_cons, hx] at h
  · intro h
    exact takeWhile_eq_nil_of_head _ _ (by
      intro c hc
      rw [List.head?_reverse] at hc
      exact h c hc)

theorem long_count_head_last :
    ∀ c, "--count=".toList.getLast? = some c → is_decimal c = false := by
  intro c hc
  have : "--count=".toList.getLast? = some '=' := by decide
  rw [this] at hc
  simp only [Option.some.injEq] at hc
  subst hc
  decide

/-- C6: for every `v < 2^32` with decimal numeral `toString v`, parsing
`[prog, "--count=" ++ numeral]` and parsing `[prog, "-C", numeral]` both complete, and
both leave the count cell equal to `v` and the other cells as they were. -/
theorem C6_count_long_short_agree (env : Env) (prog : String) (v : Nat) (hv : v < 2 ^ 32) :
    parse env parameters [prog, "--count=" ++ toString v] ""
      = .ok { params := table 0 0 0 v, dirname := "", i := 2, fired := [(3, v)] } ∧
    parse env parameters [prog, "-C", toString v] ""
      = .ok { params := table 0 0 0 v, dirname := "", i := 3, fired := [(3, v)] } ∧
    defval_at (table 0 0 0 v) 3 = v := by
  have hnum := toString_numeral v
  have htr : trailing_int ("--count=" ++ toString v) = some v :=
    trailing_int_numeral "--count=" (toString v) v hnum long_count_head_last hv
  have hfc : from_chars (toString v) = some v := from_chars_numeral _ v hnum hv
  have hsw : starts_with ("--count=" ++ toString v) "--count" = true := by
    rw [starts_with_iff]
    exact ⟨'=' :: (toString v).toList, by simp [String.toList]⟩
  refine ⟨?_, ?_, rfl⟩
  · have h1 := parse_argument_long_count env [prog, "--count=" ++ toString v]
      { params := parameters, dirname := "", i := 1, fired := [] }
      ("--count=" ++ toString v) 0 0 0 10 rfl hsw
    rw [htr] at h1
    simp [parse, parse_loop, h1]
  · have h1 := parse_argument_short_count env [prog, "-C", toString v]
      { params := parameters, dirname := "", i := 1, fired := [] } 0 0 0 10 rfl
    simp only [List.getElem?_cons_succ, List.getElem?_cons_zero, hfc] at h1
    simp [parse, parse_loop, h1]

/-- C6 (witness): the value 15, as in `--count=15` and `-C 15`. -/
theorem C6_count_long_short_agree_witness :
    parse (demo_env [] 0) parameters ["ransel", "--count=" ++ toString 15] ""
      = .ok { params := table 0 0 0 15, dirname := "", i := 2, fired := [(3, 15)] } ∧
    parse (demo_env [] 0) parameters ["ransel", "-C", toString 15] ""
      = .ok { params := table 0 0 0 15, dirname := "", i := 3, fired := [(3, 15)] } ∧
    defval_at (table 0 0 0 15) 3 = 15 :=
  C6_count_long_short_agree (demo_env [] 0) "ransel" 15 (by decide)

/-- C7: when `parse` completes on an argument list holding, after the program name, a
token equal to `-l` or with `--list` as a prefix, the list cell is 1 afterwards whatever
the token carries (`--list=0` included); likewise the copy cell for `-c` and `--copy`. -/
theorem C7_list_copy_flag_sets_one (env : Env) (argv : List String) (st : ParseState)
    (hok : parse env parameters argv "" = .ok st) :
    ((∃ t ∈ argv.tail, t = "-l" ∨ starts_with t "--list" = true) →
      defval_at st.params 2 = 1) ∧
    ((∃ t ∈ argv.tail, t = "-c" ∨ starts_with t "--copy" = true) →
      defval_at st.params 1 = 1) := by
  obtain ⟨n1, h1⟩ := parse_loop_flags env argv argv.length
    { params := parameters, dirname := "", i := 1, fired := [] } st 0 0 0 10 rfl hok
    (by simp only; omega)
  have htail : argv.drop 1 = argv.tail := by cases argv <;> rfl
  simp only [htail] at h1
  constructor
  · rintro ⟨t, ht, hflag⟩
    have hany : argv.tail.any is_list_flag = true := by
      rw [List.any_eq_true]
      exact ⟨t, ht, by simpa [is_list_flag] using hflag⟩
    rw [h1, hany]
    simp [defval_at, table]
  · rintro ⟨t, ht, hflag⟩
    have hany : argv.tail.any is_copy_flag = true := by
      rw [List.any_eq_true]
      exact ⟨t, ht, by simpa [is_copy_flag] using hflag⟩
    rw [h1, hany]
    simp [defval_at, table]

/-- C7 (witness): `--list=0` and `-c` on one command line; both cells end at 1. -/
theorem C7_list_copy_flag_sets_one_witness :
    parse (demo_env [] 0) parameters ["ransel", "--list=0", "d", "-c"] ""
      = .ok { params := table 0 1 1 10, dirname := "d", i := 4, fired := [(2, 0), (1, 0)] } ∧
    defval_at (table 0 1 1 10) 2 = 1 ∧ defval_at (table 0 1 1 10) 1 = 1 :=
  ⟨rfl,
   (C7_list_copy_flag_sets_one (demo_env [] 0) ["ransel", "--list=0", "d", "-c"]
      { params := table 0 1 1 10, dirname := "d", i := 4, fired := [(2, 0), (1, 0)] } rfl).1
      ⟨"--list=0", by decide, Or.inr (by decide)⟩,
   (C7_list_copy_flag_sets_one (demo_env [] 0) ["ransel", "--list=0", "d", "-c"]
      { params := table 0 1 1 10, dirname := "d", i := 4, fired := [(2, 0), (1, 0)] } rfl).2
      ⟨"-c", by decide, Or.inl rfl⟩⟩

/-- C8: when the loop of `parse` reaches a token that has `--count` as a prefix and whose
last character is not a decimal digit, the process exits with the usage error of
`trailing_int` (status -1, not zero) in the very state in which the token was reached: no
callback has been invoked for it and the count cell is untouched. -/
theorem C8_long_count_without_digit (env : Env) (argv : List String) (tok : String)
    (h c l n i fuel : Nat) (dirname : String) (fired : List (Nat × Nat))
    (hcur : argv[i]? = some tok) (hpre : starts_with tok "--count" = true)
    (hlast : ∃ ch, tok.toList.getLast? = some ch ∧ is_decimal ch = false) :
    parse_loop env argv (fuel + 1)
        { params := table h c l n, dirname := dirname, i := i, fired := fired }
      = .error (Exit.trailing_decode_failed,
          { params := table h c l n, dirname := dirname, i := i, fired := fired }) ∧
    Exit.trailing_decode_failed.status ≠ 0 := by
  have hnil : digit_suffix tok = [] := by
    rw [digit_suffix_nil_iff]
    obtain ⟨ch, hch, hd⟩ := hlast
    intro c' hc'
    rw [hch] at hc'
    simp only [Option.some.injEq] at hc'
    subst hc'
    exact hd
  have htr : trailing_int tok = none := by
    rw [trailing_int_eq, hnil]; rfl
  have h1 := parse_argument_long_count env argv
    { params := table h c l n, dirname := dirname, i := i, fired := fired } tok h c l n rfl hpre
  rw [htr] at h1
  refine ⟨?_, by decide⟩
  rw [parse_loop]
  simp only [hcur, h1]

/-- C8 (witness): the token `--countX` right after the program name. -/
theorem C8_long_count_without_digit_witness :
    parse_loop (demo_env [] 0) ["ransel", "--countX"] (0 + 1)
        { params := table 0 0 0 10, dirname := "", i := 1, fired := [] }
      = .error (Exit.trailing_decode_failed,
          { params := table 0 0 0 10, dirname := "", i := 1, fired := [] }) ∧
    Exit.trailing_decode_failed.status ≠ 0 :=
  C8_long_count_without_digit (demo_env [] 0) ["ransel", "--countX"] "--countX" 0 0 0 10 1 0 ""
    [] rfl (by decide) ⟨'X', by decide, by decide⟩

theorem head_dropWhile_not (p : Char → Bool) (l : List Char) :
    ∀ c, (l.dropWhile p).head? = some c → p c = false := by
  induction l with
  | nil => intro c h; simp at h
  | cons x xs ih =>
    intro c h
    by_cases hx : p x = true
    · rw [List.dropWhile_cons_of_pos hx] at h
      exact ih c h
    · rw [List.dropWhile_cons_of_neg hx] at h
      simp only [List.head?_cons, Option.some.injEq] at h
      subst h
      simpa using hx

/-- The digit suffix is what its name says: a suffix of the string, made of decimal
digits only, and not preceded by a decimal digit. -/
theorem digit_suffix_spec (str : String) :
    ∃ pre, str.toList = pre ++ digit_suffix str ∧
      (∀ c ∈ digit_suffix str, is_decimal c = true) ∧
      (∀ c, pre.getLast? = some c → is_decimal c = false) := by
  refine ⟨(str.toList.reverse.dropWhile is_decimal).reverse, ?_, ?_, ?_⟩
  · unfold digit_suffix
    rw [← List.reverse_append, List.takeWhile_append_dropWhile, List.reverse_reverse]
  · intro c hc
    unfold digit_suffix at hc
    exact List.mem_takeWhile_imp (List.mem_reverse.1 hc)
  · intro c hc
    rw [List.getLast?_reverse] at hc
    exact head_dropWhile_not _ _ c hc

/-- C9 (counterexample): `15abc` is no decimal numeral, yet `-C 15abc` is accepted: parse
completes and the count cell is 15. -/
theorem C9_counterexample :
    (∀ v : Nat, toString v ≠ "15abc") ∧
    parse (demo_env [] 0) parameters ["ransel", "-C", "15abc"] ""
      = .ok { params := table 0 0 0 15, dirname := "", i := 3, fired := [(3, 15)] } := by
  refine ⟨?_, rfl⟩
  intro v hv
  have h := (toString_numeral v).2.1 'a' (by rw [hv]; decide)
  revert h
  decide

/-- C9 (amended): when the loop of `parse` reaches a token equal to `-C` and that token is
the last argument, or the next argument does not begin with a decimal digit, or the
number denoted by its leading run of decimal digits does not fit 32 bits, the process
exits with a usage error (status not zero) in the very state in which `-C` was reached:
the count cell is unchanged. -/
theorem C9_short_count_bad_value (env : Env) (argv : List String)
    (h c l n i fuel : Nat) (dirname : String) (fired : List (Nat × Nat))
    (hcur : argv[i]? = some "-C")
    (hbad : argv[i + 1]? = none ∨
      ∃ next, argv[i + 1]? = some next ∧
        ((∀ ch, next.toList.head? = some ch → is_decimal ch = false) ∨
          2 ^ 32 ≤ decimal_value (next.toList.takeWhile is_decimal))) :
    ∃ e, (e = Exit.no_value ∨ e = Exit.decode_failed) ∧
      parse_loop env argv (fuel + 1)
          { params := table h c l n, dirname := dirname, i := i, fired := fired }
        = .error (e, { params := table h c l n, dirname := dirname, i := i, fired := fired }) ∧
      e.status ≠ 0 := by
  have h1 := parse_argument_short_count env argv
    { params := table h c l n, dirname := dirname, i := i, fired := fired } h c l n rfl
  rcases hbad with hnone | ⟨next, hnext, hbad⟩
  · refine ⟨Exit.no_value, Or.inl rfl, ?_, by decide⟩
    simp only [hnone] at h1
    rw [parse_loop]
    simp only [hcur, h1]
  · have hfc : from_chars next = none := by
      unfold from_chars
      rcases hbad with hhead | hbig
      · rw [takeWhile_eq_nil_of_head _ _ hhead]; rfl
      · have : ¬ decimal_value (List.takeWhile is_decimal next.toList) < 2 ^ 32 := by omega
        simp only [this, if_false, ite_self]
    refine ⟨Exit.decode_failed, Or.inr rfl, ?_, by decide⟩
    simp only [hnext, hfc] at h1
    rw [parse_loop]
    simp only [hcur, h1]

/-- C9 (witness): `-C` followed by `-5`, which does not begin with a digit. -/
theorem C9_short_count_bad_value_witness :
    ∃ e, (e = Exit.no_value ∨ e = Exit.decode_failed) ∧
      parse_loop (demo_env [] 0) ["ransel", "-C", "-5"] (0 + 1)
          { params := table 0 0 0 10, dirname := "", i := 1, fired := [] }
        = .error (e, { params := table 0 0 0 10, dirname := "", i := 1, fired := [] }) ∧
      e.status ≠ 0 :=
  C9_short_count_bad_value (demo_env [] 0) ["ransel", "-C", "-5"] 0 0 0 10 1 0 "" [] rfl
    (Or.inr ⟨"-5", rfl, Or.inl (by decide)⟩)

/-- C10 (counterexample): the digit suffix of `--count=4294967296` denotes 2^32, but
`trailing_int` returns 0. -/
theorem C10_counterexample :
    starts_with "--count=4294967296" "--" = true ∧
    decimal_value (digit_suffix "--count=4294967296") = 4294967296 ∧
    trailing_int "--count=4294967296" = some 0 := by
  refine ⟨?_, ?_, ?_⟩ <;> decide

/-- C10 (amended): for a token starting with two dashes, `trailing_int` returns no value
exactly when the last character is not a decimal digit; otherwise, when the number
denoted by the maximal suffix of decimal digits is below 2^32, it returns that number. -/
theorem C10_trailing_int (tok : String) (hlong : starts_with tok "--" = true) :
    (trailing_int tok = none ↔ ∃ ch, tok.toList.getLast? = some ch ∧ is_decimal ch = false) ∧
    ((∃ ch, tok.toList.getLast? = some ch ∧ is_decimal ch = true) →
      decimal_value (digit_suffix tok) < 2 ^ 32 →
      trailing_int tok = some (decimal_value (digit_suffix tok))) := by
  obtain ⟨r, hr⟩ := (starts_with_iff _ _).1 hlong
  have hne : tok.toList ≠ [] := by rw [hr]; simp [String.toList]
  obtain ⟨last, hlast⟩ : ∃ ch, tok.toList.getLast? = some ch :=
    ⟨tok.toList.getLast hne, List.getLast?_eq_getLast _ hne⟩
  constructor
  · rw [trailing_int_eq]
    constructor
    · intro h
      by_cases hE : digit_suffix tok = []
      · exact ⟨last, hlast, (digit_suffix_nil_iff tok).1 hE last hlast⟩
      · cases hd : digit_suffix tok with
        | nil => exact absurd hd hE
        | cons x xs => rw [hd] at h; simp at h
    · rintro ⟨ch, hch, hd⟩
      have hE : digit_suffix tok = [] := by
        rw [digit_suffix_nil_iff]
        intro c' hc'
        rw [hch] at hc'
        simp only [Option.some.injEq] at hc'
        subst hc'
        exact hd
      rw [hE]; rfl
  · rintro ⟨ch, hch, hd⟩ hlt
    rw [trailing_int_eq, Nat.mod_eq_of_lt hlt]
    cases hs : digit_suffix tok with
    | nil =>
      have := (digit_suffix_nil_iff tok).1 hs ch hch
      rw [hd] at this
      exact absurd this (by decide)
    | cons x xs => rfl

/-- C10 (witness): `--count7x15` starts with two dashes and ends in a digit; the value
returned is the one of the digit suffix `15`. -/
theorem C10_trailing_int_witness :
    starts_with "--count7x15" "--" = true ∧
    decimal_value (digit_suffix "--count7x15") = 15 ∧
    trailing_int "--count7x15" = some (decimal_value (digit_suffix "--count7x15")) :=
  ⟨by decide, by decide,
   (C10_trailing_int "--count7x15" (by decide)).2 ⟨'5', by decide, by decide⟩ (by decide)⟩

/-! ## Unknown flags, positional arguments -/

/-- C11: when the loop of `parse` reaches a dash-prefixed token that equals none of `-h`,
`-c`, `-l`, `-C` and has none of `--help`, `--copy`, `--list`, `--count` as a prefix, the
iteration ends without error in the unchanged state (table, directory, callback log), and
the loop goes on with the next argument. -/
theorem C11_unknown_flag_ignored (env : Env) (argv : List String) (tok : String)
    (h c l n i fuel : Nat) (dirname : String) (fired : List (Nat × Nat))
    (hcur : argv[i]? = some tok) (hdash : starts_with tok "-" = true)
    (h0 : tok ≠ "-h") (h1 : tok ≠ "-c") (h2 : tok ≠ "-l") (h3 : tok ≠ "-C")
    (h0f : starts_with tok "--help" = false) (h1f : starts_with tok "--copy" = false)
    (h2f : starts_with tok "--list" = false) (h3f : starts_with tok "--count" = false) :
    parse_argument env argv
        { params := table h c l n, dirname := dirname, i := i, fired := fired } tok
      = .ok { params := table h c l n, dirname := dirname, i := i, fired := fired } ∧
    parse_loop env argv (fuel + 1)
        { params := table h c l n, dirname := dirname, i := i, fired := fired }
      = parse_loop env argv fuel
        { params := table h c l n, dirname := dirname, i := i + 1, fired := fired } := by
  have hk : kind_of tok ≠ Flag.none := by
    unfold kind_of
    rw [hdash]
    split <;> simp
  have hpa := parse_argument_unknown env argv
    { params := table h c l n, dirname := dirname, i := i, fired := fired } tok h c l n rfl hk
    h0 h0f h1 h1f h2 h2f h3 h3f
  refine ⟨hpa, ?_⟩
  rw [parse_loop]
  simp only [hcur, hpa]

/-- C11 (witness): the unknown flag `--verbose` between the program name and a directory. -/
theorem C11_unknown_flag_ignored_witness :
    parse_argument (demo_env [] 0) ["ransel", "--verbose", "d"]
        { params := table 0 0 0 10, dirname := "", i := 1, fired := [] } "--verbose"
      = .ok { params := table 0 0 0 10, dirname := "", i := 1, fired := [] } ∧
    parse_loop (demo_env [] 0) ["ransel", "--verbose", "d"] (1 + 1)
        { params := table 0 0 0 10, dirname := "", i := 1, fired := [] }
      = parse_loop (demo_env [] 0) ["ransel", "--verbose", "d"] 1
        { params := table 0 0 0 10, dirname := "", i := 1 + 1, fired := [] } :=
  C11_unknown_flag_ignored (demo_env [] 0) ["ransel", "--verbose", "d"] "--verbose" 0 0 0 10 1 1
    "" [] rfl (by decide) (by decide) (by decide) (by decide) (by decide) (by decide)
    (by decide) (by decide) (by decide)

theorem scanned_args_short (next : String) (rest : List String) :
    scanned_args ("-C" :: next :: rest) = "-C" :: scanned_args rest := by
  simp [scanned_args]

theorem scanned_args_other (a : String) (rest : List String) (ha : a ≠ "-C") :
    scanned_args (a :: rest) = a :: scanned_args rest := by
  cases rest with
  | nil => simp [scanned_args]
  | cons b rest => simp [scanned_args, ha]

theorem positional_args_short (next : String) (rest : List String) :
    positional_args ("-C" :: next :: rest) = positional_args rest := by
  have hk : kind_of "-C" ≠ Flag.none := by decide
  simp [positional_args, scanned_args_short, List.filter_cons, hk]

theorem positional_args_other (a : String) (rest : List String) (ha : a ≠ "-C") :
    positional_args (a :: rest)
      = if kind_of a = Flag.none then a :: positional_args rest else positional_args rest := by
  by_cases hk : kind_of a = Flag.none <;>
    simp [positional_args, scanned_args_other a rest ha, List.filter_cons, hk]

theorem flag_args_any_short (next : String) (rest : List String) (p : String → Bool)
    (hp : p "-C" = false) :
    (flag_args ("-C" :: next :: rest)).any p = (flag_args rest).any p := by
  have hk : kind_of "-C" ≠ Flag.none := by decide
  simp [flag_args, scanned_args_short, List.filter_cons, hk, hp]

theorem flag_args_any_other (a : String) (rest : List String) (ha : a ≠ "-C")
    (p : String → Bool) (hp : p a = true → kind_of a ≠ Flag.none) :
    (flag_args (a :: rest)).any p = (p a || (flag_args rest).any p) := by
  by_cases hk : kind_of a = Flag.none
  · have hpa : p a = false := by
      by_contra hcon
      exact hp (by simpa using hcon) hk
    simp [flag_args, scanned_args_other a rest ha, List.filter_cons, hk, hpa]
  · simp [flag_args, scanned_args_other a rest ha, List.filter_cons, hk]

theorem getLast?_getD_cons (a d : String) (l : List String) :
    (a :: l).getLast?.getD d = l.getLast?.getD a := by
  cases l with
  | nil => rfl
  | cons x xs =>
    rw [List.getLast?_cons_cons, List.getLast?_eq_getLast _ (List.cons_ne_nil x xs)]
    rfl

/-- A `-C` token that the loop gets past has consumed the next argument. -/
theorem parse_argument_step_short (env : Env) (argv : List String) (st st1 : ParseState)
    (h c l n : Nat) (hst : st.params = table h c l n)
    (hok : parse_argument env argv st "-C" = .ok st1) :
    st1.i = st.i + 1 ∧ st1.dirname = st.dirname ∧
      ∃ next v, argv[st.i + 1]? = some next ∧ from_chars next = some v ∧
        st1.params = table h c l v ∧ st1.fired = st.fired ++ [(3, v)] := by
  rw [parse_argument_short_count env argv st h c l n hst] at hok
  cases hn : argv[st.i + 1]? with
  | none => simp [hn] at hok
  | some next =>
    cases hv : from_chars next with
    | none => simp [hn, hv] at hok
    | some value =>
      simp only [hn, hv, Except.ok.injEq] at hok
      subst hok
      exact ⟨rfl, rfl, next, value, rfl, hv, rfl, rfl⟩

/-- On the fixed option table a completed loop of `parse` ends with: the copy (list) cell
at 1 when an argument processed as a flag is a copy (list) flag and untouched otherwise;
the directory equal to the last argument treated as positional, or untouched when there
is none. -/
theorem parse_loop_summary (env : Env) (argv : List String) :
    ∀ (fuel : Nat) (st st1 : ParseState) (h c l n : Nat), st.params = table h c l n →
      parse_loop env argv fuel st = .ok st1 → argv.length ≤ st.i + fuel →
      (∃ n1, st1.params = table h
          (if (flag_args (argv.drop st.i)).any is_copy_flag then 1 else c)
          (if (flag_args (argv.drop st.i)).any is_list_flag then 1 else l) n1) ∧
      st1.dirname = (positional_args (argv.drop st.i)).getLast?.getD st.dirname := by
  intro fuel
  induction fuel with
  | zero =>
    intro st st1 h c l n hst hok hlen
    simp only [parse_loop, Except.ok.injEq] at hok
    subst hok
    have : argv.drop st.i = [] := List.drop_eq_nil_of_le (by omega)
    exact ⟨⟨n, by simp [this, hst, flag_args, scanned_args]⟩,
      by simp [this, positional_args, scanned_args]⟩
  | succ fuel ih =>
    intro st st1 h c l n hst hok hlen
    rw [parse_loop] at hok
    cases ha : argv[st.i]? with
    | none =>
      simp only [ha, Except.ok.injEq] at hok
      subst hok
      have hge : argv.length ≤ st.i := List.getElem?_eq_none_iff.1 ha
      have : argv.drop st.i = [] := List.drop_eq_nil_of_le hge
      exact ⟨⟨n, by simp [this, hst, flag_args, scanned_args]⟩,
        by simp [this, positional_args, scanned_args]⟩
    | some a =>
      simp only [ha] at hok
      cases hp : parse_argument env argv st a with
      | error e => simp [hp] at hok
      | ok st2 =>
        simp only [hp] at hok
        have hdrop := drop_of_getElem? argv st.i a ha
        by_cases haC : a = "-C"
        · subst haC
          obtain ⟨hi, hd, next, v, hnext, hv, hpar, _⟩ :=
            parse_argument_step_short env argv st st2 h c l n hst hp
          have hdrop2 := drop_of_getElem? argv (st.i + 1) next hnext
          obtain ⟨⟨n1, h1⟩, h2⟩ := ih { st2 with i := st2.i + 1 } st1 h c l v hpar hok
            (by simp only; omega)
          simp only [hi] at h1 h2
          rw [hdrop, hdrop2, flag_args_any_short next _ is_copy_flag (by decide),
            flag_args_any_short next _ is_list_flag (by decide), positional_args_short]
          exact ⟨⟨n1, h1⟩, by rw [h2, hd]⟩
        · obtain ⟨⟨n2, hst2⟩, hi, hd⟩ := parse_argument_step env argv st st2 a h c l n hst hp
          have hi2 : st2.i = st.i := by
            rcases hi with hi | ⟨_, hC, _⟩
            · exact hi
            · exact absurd hC haC
          obtain ⟨⟨n1, h1⟩, h2⟩ := ih { st2 with i := st2.i + 1 } st1 h _ _ n2 hst2 hok
            (by simp only; omega)
          simp only [hi2] at h1 h2
          rw [hdrop, flag_args_any_other a _ haC is_copy_flag
              (fun hc => (copy_flag_facts a hc).2.1),
            flag_args_any_other a _ haC is_list_flag (fun hc => (list_flag_facts a hc).2.1),
            positional_args_other a _ haC]
          refine ⟨⟨n1, ?_⟩, ?_⟩
          · rw [h1]
            by_cases hca : is_copy_flag a = true <;> by_cases hla : is_list_flag a = true <;>
              simp [hca, hla]
          · rw [h2, hd]
            by_cases hk : kind_of a = Flag.none
            · simp only [hk, if_true]
              rw [getLast?_getD_cons]
            · simp only [hk, if_false]

/-- C12: when `parse` completes, the directory it returns is the last of the arguments
treated as positional (after the program name, not starting with a dash, not consumed as
the value of `-C`), and the empty string when there is none. -/
theorem C12_last_positional_wins (env : Env) (argv : List String) (st : ParseState)
    (hok : parse env parameters argv "" = .ok st) :
    st.dirname = (positional_args argv.tail).getLast?.getD "" := by
  have h := (parse_loop_summary env argv argv.length
    { params := parameters, dirname := "", i := 1, fired := [] } st 0 0 0 10 rfl hok
    (by simp only; omega)).2
  have htail : argv.drop 1 = argv.tail := by cases argv <;> rfl
  simpa only [htail] using h

/-- C12 (witness): two directories, a count and a flag; the program name and the value of
`-C` are not positional, the last directory wins. -/
theorem C12_last_positional_wins_witness :
    positional_args ["ransel", "d1", "-C", "5", "-l", "d2"].tail = ["d1", "d2"] ∧
    "d2" = (positional_args ["ransel", "d1", "-C", "5", "-l", "d2"].tail).getLast?.getD "" :=
  ⟨by decide,
   C12_last_positional_wins (demo_env [] 0) ["ransel", "d1", "-C", "5", "-l", "d2"]
    { params := table 0 0 1 5, dirname := "d2", i := 6, fired := [(3, 5), (2, 0)] } rfl⟩

/-! ## The driver -/

/-- C13: with exactly one regular file the vector of selection indices is the single index
0 for every requested count, and the trace is untouched: the generator is not called. -/
theorem C13_single_file_index_zero (env : Env) (req : Nat) (t : Trace) :
    select_indices env 1 req t = ([0], t) := by
  simp [select_indices]

theorem parse_short_argv (env : Env) (params : List Param) (argv : List String)
    (dirname : String) (hlen : argv.length ≤ 1) :
    parse env params argv dirname
      = .ok { params := params, dirname := dirname, i := 1, fired := [] } := by
  have hnone : argv[1]? = none := List.getElem?_eq_none (by omega)
  unfold parse
  cases hl : argv.length with
  | zero => rfl
  | succ k => simp [parse_loop, hnone]

theorem parsed_dirname_argv (env : Env) (argv : List String) (st : ParseState)
    (hparse : parse env parameters argv "" = .ok st) (hdir : st.dirname.isEmpty = false) :
    ¬ argv.length ≤ 1 := by
  intro hlen
  rw [parse_short_argv env parameters argv "" hlen] at hparse
  simp only [Except.ok.injEq] at hparse
  subst hparse
  revert hdir
  decide

/-- What `main` does once `parse` has returned. -/
theorem main_after_parse (env : Env) (argv : List String) (st : ParseState)
    (hlen : ¬ argv.length ≤ 1) (hparse : parse env parameters argv "" = .ok st) :
    main env argv
      = if st.dirname.isEmpty then ⟨some Exit.no_directory, Trace.empty⟩
        else if defval_at st.params 3 = 0 then ⟨some Exit.zero_count, Trace.empty⟩
        else select env st.dirname (defval_at st.params 3) (defval_at st.params 1)
          (defval_at st.params 2) := by
  unfold main
  simp only [hlen, if_false, hparse]

/-- C14 (counterexample): an empty directory and `-C 0`; the run ends with the error on
the count, not with the one on the empty directory. -/
theorem C14_counterexample :
    (demo_env [] 0).regular_files ((demo_env [] 0).absolute "d") = [] ∧
    main (demo_env [] 0) ["ransel", "-C", "0", "d"] = ⟨some Exit.zero_count, Trace.empty⟩ ∧
    Exit.zero_count ≠ Exit.empty_directory := by
  refine ⟨?_, ?_, ?_⟩ <;> decide

/-- C14 (amended): when parsing yields a directory and a requested count of at least 1,
and the directory holds no regular file, the run ends with the empty-directory error,
status -1, and an empty trace: nothing created, copied or listed. -/
theorem C14_empty_directory (env : Env) (argv : List String) (st : ParseState)
    (hparse : parse env parameters argv "" = .ok st) (hdir : st.dirname.isEmpty = false)
    (hcount : 1 ≤ defval_at st.params 3)
    (hempty : env.regular_files (env.absolute st.dirname) = []) :
    main env argv = ⟨some Exit.empty_directory, Trace.empty⟩ ∧
    (main env argv).status = -1 ∧
    (main env argv).trace.created = [] ∧ (main env argv).trace.copied = [] ∧
    (main env argv).trace.stdout = [] := by
  have hmain : main env argv = ⟨some Exit.empty_directory, Trace.empty⟩ := by
    rw [main_after_parse env argv st (parsed_dirname_argv env argv st hparse hdir) hparse]
    have hc : ¬ defval_at st.params 3 = 0 := by omega
    simp [hdir, hc, select, hempty]
  rw [hmain]
  exact ⟨rfl, rfl, rfl, rfl, rfl⟩

/-- C14 (witness): an empty directory and the default count 10. -/
theorem C14_empty_directory_witness :
    main (demo_env [] 0) ["ransel", "d"] = ⟨some Exit.empty_directory, Trace.empty⟩ ∧
    (main (demo_env [] 0) ["ransel", "d"]).status = -1 ∧
    (main (demo_env [] 0) ["ransel", "d"]).trace.created = [] ∧
    (main (demo_env [] 0) ["ransel", "d"]).trace.copied = [] ∧
    (main (demo_env [] 0) ["ransel", "d"]).trace.stdout = [] :=
  C14_empty_directory (demo_env [] 0) ["ransel", "d"]
    { params := parameters, dirname := "d", i := 2, fired := [] } rfl (by decide) (by decide)
    rfl

/-- C15: when the driver has parsed its arguments, it goes on to enumeration and selection
exactly when the directory is not empty and the count is not 0; with an empty directory
string or a count of 0 the run ends with a usage error of status -1 and an empty trace. -/
theorem C15_driver_validation (env : Env) (argv : List String) (st : ParseState)
    (hlen : 1 < argv.length) (hparse : parse env parameters argv "" = .ok st) :
    ((st.dirname.isEmpty = true ∨ defval_at st.params 3 = 0) →
      ∃ e, (e = Exit.no_directory ∨ e = Exit.zero_count) ∧
        main env argv = ⟨some e, Trace.empty⟩ ∧ e.status = -1 ∧ (main env argv).status ≠ 0) ∧
    ((st.dirname.isEmpty = false ∧ 0 < defval_at st.params 3) →
      main env argv = select env st.dirname (defval_at st.params 3) (defval_at st.params 1)
        (defval_at st.params 2)) := by
  have hmain := main_after_parse env argv st (by omega) hparse
  constructor
  · intro hbad
    by_cases hd : st.dirname.isEmpty = true
    · refine ⟨Exit.no_directory, Or.inl rfl, ?_, rfl, ?_⟩
      · rw [hmain]; simp [hd]
      · rw [hmain]; simp [hd]; decide
    · have hc : defval_at st.params 3 = 0 := by
        rcases hbad with hbad | hbad
        · exact absurd hbad hd
        · exact hbad
      refine ⟨Exit.zero_count, Or.inr rfl, ?_, rfl, ?_⟩
      · rw [hmain]; simp [hd, hc]
      · rw [hmain]; simp [hd, hc]; decide
  · rintro ⟨hd, hc⟩
    have hc2 : ¬ defval_at st.params 3 = 0 := by omega
    rw [hmain]
    simp [hd, hc2]

/-- C15 (witness): `--count=0` with a directory; the run ends with the error on the
count. -/
theorem C15_driver_validation_witness :
    main (demo_env ["a"] 0) ["ransel", "--count=0", "d"]
      = ⟨some Exit.zero_count, Trace.empty⟩ ∧
    (main (demo_env ["a"] 0) ["ransel", "--count=0", "d"]).status ≠ 0 := by
  obtain ⟨e, _, hm, _, hs⟩ := (C15_driver_validation (demo_env ["a"] 0)
    ["ransel", "--count=0", "d"]
    { params := table 0 0 0 0, dirname := "d", i := 3, fired := [(3, 0)] } (by decide) rfl).1
    (Or.inr rfl)
  exact ⟨by decide, hs⟩

theorem lower_letter_of_draw (v : Nat) (h1 : 'a'.toNat ≤ v) (h2 : v ≤ 'z'.toNat) :
    is_lower_letter (Char.ofNat (v % 2 ^ 32 % 256)) = true := by
  have ha : 'a'.toNat = 97 := by decide
  have hz : 'z'.toNat = 122 := by decide
  rw [ha] at h1
  rw [hz] at h2
  interval_cases v <;> decide

theorem random_name_spec (env : Env) (hrng : env.rng_in_range) :
    ∀ (n : Nat) (t : Trace),
      (random_name env n t).1.length = n ∧
      ∀ c ∈ (random_name env n t).1, is_lower_letter c = true := by
  intro n
  induction n with
  | zero => intro t; simp [random_name]
  | succ n ih =>
    intro t
    obtain ⟨h1, h2⟩ := hrng t.urand_calls.length 'a'.toNat 'z'.toNat (by decide)
    obtain ⟨ihl, ihc⟩ := ih (urand env 'a'.toNat 'z'.toNat t).2
    constructor
    · simp only [random_name, List.length_cons, ihl]
    · intro c hc
      simp only [random_name, List.mem_cons] at hc
      rcases hc with hc | hc
      · rw [hc]
        exact lower_letter_of_draw _ h1 h2
      · exact ihc c hc

/-- C16: for every working directory the destination is the working directory, a
separator, 31 characters that are lowercase letters (when the generator keeps its
contract) and a separator; the leading working directory and separator are as given. -/
theorem C16_destination_shape (env : Env) (t : Trace) (hrng : env.rng_in_range) :
    ∃ r : List Char,
      (make_destination env t).1
        = env.current_path ++ String.singleton env.preferred_separator ++ String.mk r
            ++ String.singleton env.preferred_separator ∧
      r.length = 31 ∧ ∀ c ∈ r, is_lower_letter c = true :=
  ⟨(random_name env 31 t).1, rfl, (random_name_spec env hrng 31 t).1,
    (random_name_spec env hrng 31 t).2⟩

/-- C16 (witness): the sample environment draws `a` each time. -/
theorem C16_destination_shape_witness :
    ∃ r : List Char,
      (make_destination (demo_env [] 0) Trace.empty).1
        = (demo_env [] 0).current_path ++ String.singleton (demo_env [] 0).preferred_separator
            ++ String.mk r ++ String.singleton (demo_env [] 0).preferred_separator ∧
      r.length = 31 ∧ ∀ c ∈ r, is_lower_letter c = true :=
  C16_destination_shape (demo_env [] 0) Trace.empty (demo_env_rng_in_range _ _)

theorem fill_indices_trace (env : Env) (hi : Nat) :
    ∀ (l : List Nat) (t : Trace),
      (fill_indices env hi l t).2.stdout = t.stdout ∧
      (fill_indices env hi l t).2.created = t.created ∧
      (fill_indices env hi l t).2.copied = t.copied := by
  intro l
  induction l with
  | nil => intro t; exact ⟨rfl, rfl, rfl⟩
  | cons x xs ih =>
    intro t
    simp only [fill_indices]
    exact ih (urand env 1 hi t).2

theorem select_indices_trace (env : Env) (n req : Nat) (t : Trace) :
    (select_indices env n req t).2.stdout = t.stdout ∧
    (select_indices env n req t).2.created = t.created ∧
    (select_indices env n req t).2.copied = t.copied := by
  unfold select_indices
  by_cases h : n = 1
  · simp [h]
  · simp only [h, if_false]
    exact fill_indices_trace env _ _ t

theorem random_name_trace (env : Env) :
    ∀ (n : Nat) (t : Trace),
      (random_name env n t).2.stdout = t.stdout ∧
      (random_name env n t).2.created = t.created ∧
      (random_name env n t).2.copied = t.copied ∧
      (random_name env n t).2.selected = t.selected := by
  intro n
  induction n with
  | zero => intro t; exact ⟨rfl, rfl, rfl, rfl⟩
  | succ n ih =>
    intro t
    simp only [random_name]
    exact ih (urand env 'a'.toNat 'z'.toNat t).2

/-- The processing loop when every index is in bounds and every copy succeeds: it runs to
its end and prints, when listing is on, the path at each index in order. -/
theorem process_ok (env : Env) (iters : List String) (destination : String)
    (copy list : Nat) (hcopy : ∀ p q, env.copy_ok p q = true) :
    ∀ (indices : List Nat) (t : Trace), (∀ idx ∈ indices, idx < iters.length) →
      ∃ t1, process env iters destination copy list indices t = .ok t1 ∧
        t1.stdout = t.stdout ++
          (if list ≠ 0 then indices.map (fun idx => Output.line (iters.getD idx "")) else []) ∧
        t1.selected = t.selected ∧ t1.processed = t.processed ++ indices := by
  intro indices
  induction indices with
  | nil =>
    intro t _
    exact ⟨t, rfl, by simp, rfl, by simp⟩
  | cons index more ih =>
    intro t hin
    have hlt : ¬ index ≥ iters.length := by
      have := hin index (List.mem_cons_self _ _)
      omega
    have hmore : ∀ idx ∈ more, idx < iters.length :=
      fun idx h => hin idx (List.mem_cons_of_mem _ h)
    have hstep : process env iters destination copy list (index :: more) t
        = process env iters destination copy list more
            ⟨t.stdout ++ (if list ≠ 0 then [Output.line (iters.getD index "")] else []),
             t.created,
             t.copied ++ (if copy ≠ 0 then [(iters.getD index "", destination)] else []),
             t.urand_calls, t.selected, t.processed ++ [index]⟩ := by
      simp only [process, hlt, if_false, hcopy, Bool.true_eq_false, and_false]
      by_cases hc : copy = 0 <;> by_cases hl : list = 0 <;> simp [hc, hl]
    obtain ⟨t1, h1, h2, h3, h4⟩ := ih
      ⟨t.stdout ++ (if list ≠ 0 then [Output.line (iters.getD index "")] else []),
       t.created,
       t.copied ++ (if copy ≠ 0 then [(iters.getD index "", destination)] else []),
       t.urand_calls, t.selected, t.processed ++ [index]⟩ hmore
    refine ⟨t1, by rw [hstep, h1], ?_, h3, ?_⟩
    · rw [h2]
      by_cases hl : list = 0 <;> simp [hl]
    · rw [h4]
      simp

/-- A run of the selector on a non-empty inventory whose filesystem operations succeed
and whose selection indices are in bounds: it returns 0 and standard output is the
listing (when enabled) followed by one blank line. -/
theorem select_ok (env : Env) (dirname : String) (req copy list : Nat)
    (hfiles : env.regular_files (env.absolute dirname) ≠ [])
    (hcreate : ∀ p, env.create_directory p = true) (hcopy : ∀ p q, env.copy_ok p q = true)
    (hin : ∀ idx ∈ (select_indices env (env.regular_files (env.absolute dirname)).length req
        Trace.empty).1, idx < (env.regular_files (env.absolute dirname)).length) :
    (select env dirname req copy list).exit = none ∧
    (select env dirname req copy list).status = 0 ∧
    (select env dirname req copy list).trace.stdout
      = (if list ≠ 0 then
          (select_indices env (env.regular_files (env.absolute dirname)).length req
            Trace.empty).1.map
            (fun idx => Output.line ((env.regular_files (env.absolute dirname)).getD idx ""))
         else []) ++ [Output.blank] := by
  have hlen : ¬ (env.regular_files (env.absolute dirname)).length = 0 := by
    intro h; exact hfiles (List.length_eq_zero.1 h)
  obtain ⟨hs1, _, _⟩ := select_indices_trace env
    (env.regular_files (env.absolute dirname)).length req Trace.empty
  generalize hsel : select_indices env (env.regular_files (env.absolute dirname)).length req
    Trace.empty = s at hin hs1
  obtain ⟨hr1, _, _, _⟩ := random_name_trace env 31 { s.2 with selected := s.1 }
  have hstart : ∀ t0 : Trace, t0.stdout = [] →
      ∃ t1, process env (env.regular_files (env.absolute dirname))
          (make_destination env { s.2 with selected := s.1 }).1 copy list s.1 t0 = .ok t1 ∧
        t1.stdout = (if list ≠ 0 then s.1.map
          (fun idx => Output.line ((env.regular_files (env.absolute dirname)).getD idx ""))
          else []) := by
    intro t0 h0
    obtain ⟨t1, h1, h2, _, _⟩ := process_ok env (env.regular_files (env.absolute dirname))
      (make_destination env { s.2 with selected := s.1 }).1 copy list hcopy s.1 t0 hin
    exact ⟨t1, h1, by rw [h2, h0]; simp⟩
  have hd0 : (make_destination env { s.2 with selected := s.1 }).2.stdout = [] := by
    have : (make_destination env { s.2 with selected := s.1 }).2.stdout = s.2.stdout := hr1
    rw [this, hs1]; rfl
  by_cases hc : copy = 0
  · subst hc
    obtain ⟨t1, h1, h2⟩ := hstart (make_destination env { s.2 with selected := s.1 }).2 hd0
    simp [select, hlen, hsel, h1, Outcome.status, h2]
  · obtain ⟨t1, h1, h2⟩ := hstart
      { (make_destination env { s.2 with selected := s.1 }).2 with
        created := (make_destination env { s.2 with selected := s.1 }).2.created ++
          [(make_destination env { s.2 with selected := s.1 }).1] } hd0
    simp [select, hlen, hsel, hc, hcreate, h1, Outcome.status, h2]

/-- C17 (behaviour of the code): a run that passes validation, whose filesystem
operations succeed and whose selection indices are within the inventory returns 0 and
prints the listing (when enabled) in the order of the indices and then one blank line.
The indices are not always within the inventory: with 2 files, `-l` and `-C 1` the index
comes from `urand(1, 0)`; when the generator answers 7 the run passes validation, prints
nothing, not even the blank line, and exits with status -1. -/
theorem C17_output_and_status :
    (∀ (env : Env) (argv : List String) (st : ParseState),
      parse env parameters argv "" = .ok st → st.dirname.isEmpty = false →
      0 < defval_at st.params 3 →
      env.regular_files (env.absolute st.dirname) ≠ [] →
      (∀ p, env.create_directory p = true) → (∀ p q, env.copy_ok p q = true) →
      (∀ idx ∈ (select_indices env (env.regular_files (env.absolute st.dirname)).length
          (defval_at st.params 3) Trace.empty).1,
        idx < (env.regular_files (env.absolute st.dirname)).length) →
      (main env argv).exit = none ∧ (main env argv).status = 0 ∧
      (main env argv).trace.stdout
        = (if defval_at st.params 2 ≠ 0 then
            (select_indices env (env.regular_files (env.absolute st.dirname)).length
              (defval_at st.params 3) Trace.empty).1.map
              (fun idx => Output.line
                ((env.regular_files (env.absolute st.dirname)).getD idx ""))
           else []) ++ [Output.blank]) ∧
    ((demo_env ["a", "b"] 7).rng_in_range ∧
      (main (demo_env ["a", "b"] 7) ["ransel", "-l", "-C", "1", "d"]).exit
        = some Exit.out_of_bounds ∧
      (main (demo_env ["a", "b"] 7) ["ransel", "-l", "-C", "1", "d"]).status = -1 ∧
      (main (demo_env ["a", "b"] 7) ["ransel", "-l", "-C", "1", "d"]).trace.stdout = []) := by
  constructor
  · intro env argv st hparse hdir hcount hfiles hcreate hcopy hin
    have hc : ¬ defval_at st.params 3 = 0 := by omega
    have hmain : main env argv = select env st.dirname (defval_at st.params 3)
        (defval_at st.params 1) (defval_at st.params 2) := by
      rw [main_after_parse env argv st (parsed_dirname_argv env argv st hparse hdir) hparse]
      simp [hdir, hc]
    rw [hmain]
    exact select_ok env st.dirname _ _ _ hfiles hcreate hcopy hin
  · exact ⟨demo_env_rng_in_range _ _, by decide, by decide, by decide⟩

/-! ## One option per argument -/

theorem count_flag_facts (a : String) (ha : a = "-C" ∨ starts_with a "--count" = true) :
    a ≠ "-h" ∧ starts_with a "--help" = false := by
  rcases ha with ha | ha
  · subst ha; decide
  · obtain ⟨r, hr⟩ := (starts_with_iff _ _).1 ha
    simp only [String.toList] at hr
    simp [starts_with, starts_with_chars, hr, String.ext_iff]

/-- No argument matches two entries of the option table. -/
theorem matches_at_most_one (a : String) :
    (parameters.filter (matches_param a)).length ≤ 1 := by
  by_cases hc : is_copy_flag a = true
  · have hf := copy_flag_facts a hc
    simp only [is_list_flag, Bool.or_eq_false_iff, decide_eq_false_iff_not] at hf
    simp only [is_copy_flag] at hc
    simp [parameters, matches_param, List.filter_cons, hc, hf]
  · by_cases hl : is_list_flag a = true
    · have hf := list_flag_facts a hl
      simp only [is_copy_flag, Bool.or_eq_false_iff, decide_eq_false_iff_not] at hf
      simp only [is_list_flag] at hl
      simp [parameters, matches_param, List.filter_cons, hl, hf]
    · simp only [is_copy_flag, is_list_flag, Bool.or_eq_true, decide_eq_true_eq, not_or,
        Bool.not_eq_true] at hc hl
      by_cases h3 : a = "-C" ∨ starts_with a "--count" = true
      · have hf := count_flag_facts a h3
        have h3b : (decide (a = "-C") || starts_with a "--count") = true := by
          simpa using h3
        simp [parameters, matches_param, List.filter_cons, hc, hl, hf, h3b]
      · simp only [not_or, Bool.not_eq_true] at h3
        by_cases h0 : (decide (a = "-h") || starts_with a "--help") = true
        · simp [parameters, matches_param, List.filter_cons, hc, hl, h3, h0]
        · simp only [Bool.not_eq_true] at h0
          simp [parameters, matches_param, List.filter_cons, hc, hl, h3, h0]

/-- On the fixed option table the scan over all entries and the scan that stops at the
first match give the same result, for every argument and every kind. -/
theorem scan_params_eq_scan_first (argv : List String) (a : String) (k : Flag)
    (st : ParseState) (h c l n : Nat) (hst : st.params = table h c l n) :
    scan_params argv a k 4 0 st = scan_first argv a k 4 0 st := by
  by_cases h0 : a = "-h" ∨ starts_with a "--help" = true
  · have h0b : (decide (a = "-h") || starts_with a "--help") = true := by simpa using h0
    simp [scan_params, scan_first, match_param, matches_param, hst, table, h0b, invoke,
      Callback.call, help_call]
  · simp only [not_or, Bool.not_eq_true] at h0
    by_cases hc : is_copy_flag a = true
    · have hf := copy_flag_facts a hc
      simp only [is_list_flag, Bool.or_eq_false_iff, decide_eq_false_iff_not] at hf
      simp only [is_copy_flag] at hc
      simp [scan_params, scan_first, match_param, matches_param, hst, table, h0, hc, hf,
        invoke, Callback.call, copy_call]
    · by_cases hl : is_list_flag a = true
      · have hf := list_flag_facts a hl
        simp only [is_copy_flag, Bool.or_eq_false_iff, decide_eq_false_iff_not] at hf
        simp only [is_list_flag] at hl
        simp [scan_params, scan_first, match_param, matches_param, hst, table, h0, hl, hf,
          invoke, Callback.call, list_call]
      · simp only [is_copy_flag, is_list_flag, Bool.or_eq_true, decide_eq_true_eq, not_or,
          Bool.not_eq_true] at hc hl
        by_cases h3 : (decide (a = "-C") || starts_with a "--count") = true
        · have e0 : match_param argv a k st 0 = .ok st := by
            simp [match_param, hst, table, h0]
          have e1 : match_param argv a k st (0 + 1) = .ok st := by
            simp [match_param, hst, table, hc]
          have e2 : match_param argv a k st (0 + 1 + 1) = .ok st := by
            simp [match_param, hst, table, hl]
          have f3 : scan_first argv a k 4 0 st = match_param argv a k st (0 + 1 + 1 + 1) := by
            simp [scan_first, matches_param, hst, table, h0, hc, hl, h3]
          rw [f3]
          simp only [scan_params, e0, e1, e2]
          cases match_param argv a k st (0 + 1 + 1 + 1) <;> rfl
        · simp only [Bool.not_eq_true] at h3
          simp only [Bool.or_eq_false_iff, decide_eq_false_iff_not] at h3
          simp [scan_params, scan_first, match_param, matches_param, hst, table, h0, hc, hl,
            h3]

theorem effect_of_ok (st st2 : ParseState) (hle : st2.fired.length ≤ st.fired.length + 1) :
    (∀ st1, (Except.ok st2 : Parsed) = .ok st1 → st1.fired.length ≤ st.fired.length + 1) ∧
    (∀ e st1, (Except.ok st2 : Parsed) = .error (e, st1) →
      st1.params = st.params ∧ st1.fired.length ≤ st.fired.length + 1) := by
  constructor
  · intro st1 h
    simp only [Except.ok.injEq] at h
    subst h
    exact hle
  · intro e st1 h
    simp at h

theorem effect_of_error (e0 : Exit) (st st2 : ParseState) (hp : st2.params = st.params)
    (hle : st2.fired.length ≤ st.fired.length + 1) :
    (∀ st1, (Except.error (e0, st2) : Parsed) = .ok st1 →
      st1.fired.length ≤ st.fired.length + 1) ∧
    (∀ e st1, (Except.error (e0, st2) : Parsed) = .error (e, st1) →
      st1.params = st.params ∧ st1.fired.length ≤ st.fired.length + 1) := by
  constructor
  · intro st1 h
    simp at h
  · intro e st1 h
    simp only [Except.error.injEq, Prod.mk.injEq] at h
    obtain ⟨_, h2⟩ := h
    subst h2
    exact ⟨hp, hle⟩

/-- One iteration of the outer loop on the fixed option table invokes at most one
callback, and when it exits the table is the one it started with. -/
theorem parse_argument_effect (env : Env) (argv : List String) (st : ParseState)
    (a : String) (h c l n : Nat) (hst : st.params = table h c l n) :
    (∀ st1, parse_argument env argv st a = .ok st1 →
      st1.fired.length ≤ st.fired.length + 1) ∧
    (∀ e st1, parse_argument env argv st a = .error (e, st1) →
      st1.params = st.params ∧ st1.fired.length ≤ st.fired.length + 1) := by
  by_cases hk : kind_of a = Flag.none
  · rw [parse_argument_positional env argv st a hk]
    by_cases he : env.exists_ a = true
    · by_cases hd : env.is_directory a = true
      · simp only [he, hd, if_true]
        exact effect_of_ok _ _ (by simp)
      · simp only [he, hd, if_true, if_false]
        exact effect_of_error _ _ _ rfl (by simp)
    · simp only [he, if_false]
      exact effect_of_error _ _ _ rfl (by simp)
  · by_cases h0 : a = "-h" ∨ starts_with a "--help" = true
    · rw [parse_argument_help env argv st a h c l n hst h0]
      exact effect_of_error _ _ _ rfl (by simp)
    · by_cases h1 : is_copy_flag a = true
      · rw [parse_argument_copy env argv st a h c l n hst (by simpa [is_copy_flag] using h1)]
        exact effect_of_ok _ _ (by simp)
      · by_cases h2 : is_list_flag a = true
        · rw [parse_argument_list env argv st a h c l n hst (by simpa [is_list_flag] using h2)]
          exact effect_of_ok _ _ (by simp)
        · by_cases h3 : a = "-C"
          · subst h3
            rw [parse_argument_short_count env argv st h c l n hst]
            cases hn : argv[st.i + 1]? with
            | none => exact effect_of_error _ _ _ rfl (by simp)
            | some next =>
              dsimp only
              cases hv : from_chars next with
              | none => exact effect_of_error _ _ _ rfl (by simp)
              | some value => exact effect_of_ok _ _ (by simp)
          · by_cases h4 : starts_with a "--count" = true
            · rw [parse_argument_long_count env argv st a h c l n hst h4]
              cases hv : trailing_int a with
              | none => exact effect_of_error _ _ _ rfl (by simp)
              | some res => exact effect_of_ok _ _ (by simp)
            · simp only [not_or, Bool.not_eq_true] at h0
              simp only [is_copy_flag, is_list_flag, Bool.or_eq_true, decide_eq_true_eq, not_or,
                Bool.not_eq_true] at h1 h2
              simp only [Bool.not_eq_true] at h4
              rw [parse_argument_unknown env argv st a h c l n hst hk h0.1 h0.2 h1.1 h1.2
                h2.1 h2.2 h3 h4]
              exact effect_of_ok _ _ (by simp)

/-- C18: on the fixed option table no argument matches more than one entry under the
rule of the parser; one argument invokes at most one callback, whether the iteration ends
normally or with an exit; the scan over all entries equals the scan that stops at the
first match; a `-C` token that is accepted moves the cursor by one extra position and no
other token moves it. -/
theorem C18_one_option_per_argument :
    (∀ a : String, (parameters.filter (matches_param a)).length ≤ 1) ∧
    (∀ (env : Env) (argv : List String) (a : String) (h c l n i : Nat) (dirname : String)
        (fired : List (Nat × Nat)),
      (∀ st1, parse_argument env argv
          { params := table h c l n, dirname := dirname, i := i, fired := fired } a = .ok st1 →
        st1.fired.length ≤ fired.length + 1) ∧
      (∀ e st1, parse_argument env argv
          { params := table h c l n, dirname := dirname, i := i, fired := fired } a
            = .error (e, st1) →
        st1.fired.length ≤ fired.length + 1)) ∧
    (∀ (argv : List String) (a : String) (k : Flag) (h c l n i : Nat) (dirname : String)
        (fired : List (Nat × Nat)),
      scan_params argv a k (table h c l n).length 0
          { params := table h c l n, dirname := dirname, i := i, fired := fired }
        = scan_first argv a k (table h c l n).length 0
          { params := table h c l n, dirname := dirname, i := i, fired := fired }) ∧
    (∀ (env : Env) (argv : List String) (a : String) (h c l n i : Nat) (dirname : String)
        (fired : List (Nat × Nat)) (st1 : ParseState),
      parse_argument env argv
          { params := table h c l n, dirname := dirname, i := i, fired := fired } a = .ok st1 →
        st1.i = if a = "-C" then i + 1 else i) := by
  refine ⟨matches_at_most_one, ?_, ?_, ?_⟩
  · intro env argv a h c l n i dirname fired
    have := parse_argument_effect env argv
      { params := table h c l n, dirname := dirname, i := i, fired := fired } a h c l n rfl
    exact ⟨this.1, fun e st1 he => (this.2 e st1 he).2⟩
  · intro argv a k h c l n i dirname fired
    exact scan_params_eq_scan_first argv a k _ h c l n rfl
  · intro env argv a h c l n i dirname fired st1 hok
    by_cases haC : a = "-C"
    · subst haC
      simp only [if_true]
      exact (parse_argument_step_short env argv _ st1 h c l n rfl hok).1
    · simp only [haC, if_false]
      rcases (parse_argument_step env argv _ st1 a h c l n rfl hok).2.1 with hi | ⟨_, hC, _⟩
      · exact hi
      · exact absurd hC haC

/-- C18 (witness): `--count=5` matches one entry; an accepted `-C 5` moves the cursor from
1 to 2 before the loop adds its own step. -/
theorem C18_one_option_per_argument_witness :
    (parameters.filter (matches_param "--count=5")).length ≤ 1 ∧
    (({ params := table 0 0 0 5, dirname := "", i := 2, fired := [(3, 5)] } : ParseState).i
      = if "-C" = "-C" then 1 + 1 else 1) :=
  ⟨C18_one_option_per_argument.1 "--count=5",
   C18_one_option_per_argument.2.2.2 (demo_env [] 0) ["ransel", "-C", "5"] "-C" 0 0 0 10 1 ""
    [] { params := table 0 0 0 5, dirname := "", i := 2, fired := [(3, 5)] } rfl⟩

/-! ## The copy and list cells -/

/-- However many iterations the loop of `parse` has made, and whether it then goes on or
exits, the table has its fixed shape, a copy (list) cell that was at most 1 is at most 1
and one that was 1 is 1. -/
theorem parse_loop_cells (env : Env) (argv : List String) :
    ∀ (fuel : Nat) (st : ParseState) (h c l n : Nat), st.params = table h c l n →
      c ≤ 1 → l ≤ 1 →
      (∀ st1, parse_loop env argv fuel st = .ok st1 →
        ∃ c1 l1 n1, st1.params = table h c1 l1 n1 ∧ c1 ≤ 1 ∧ l1 ≤ 1 ∧
          (c = 1 → c1 = 1) ∧ (l = 1 → l1 = 1)) ∧
      (∀ e st1, parse_loop env argv fuel st = .error (e, st1) →
        ∃ c1 l1 n1, st1.params = table h c1 l1 n1 ∧ c1 ≤ 1 ∧ l1 ≤ 1 ∧
          (c = 1 → c1 = 1) ∧ (l = 1 → l1 = 1)) := by
  intro fuel
  induction fuel with
  | zero =>
    intro st h c l n hst hc hl
    constructor
    · intro st1 hok
      simp only [parse_loop, Except.ok.injEq] at hok
      subst hok
      exact ⟨c, l, n, hst, hc, hl, id, id⟩
    · intro e st1 herr
      simp [parse_loop] at herr
  | succ fuel ih =>
    intro st h c l n hst hc hl
    rw [parse_loop]
    cases ha : argv[st.i]? with
    | none =>
      constructor
      · intro st1 hok
        simp only [Except.ok.injEq] at hok
        subst hok
        exact ⟨c, l, n, hst, hc, hl, id, id⟩
      · intro e st1 herr
        simp at herr
    | some a =>
      dsimp only
      have heff := parse_argument_effect env argv st a h c l n hst
      cases hp : parse_argument env argv st a with
      | error e0 =>
        obtain ⟨e1, st2⟩ := e0
        constructor
        · intro st1 hok
          simp at hok
        · intro e st1 herr
          simp only [Except.error.injEq, Prod.mk.injEq] at herr
          obtain ⟨_, h2⟩ := herr
          subst h2
          have := (heff.2 e1 st2 hp).1
          exact ⟨c, l, n, by rw [this, hst], hc, hl, id, id⟩
      | ok st2 =>
        dsimp only
        obtain ⟨⟨n2, hst2⟩, _, _⟩ := parse_argument_step env argv st st2 a h c l n hst hp
        have hc2 : (if is_copy_flag a = true then 1 else c) ≤ 1 := by split <;> omega
        have hl2 : (if is_list_flag a = true then 1 else l) ≤ 1 := by split <;> omega
        have hcm : c = 1 → (if is_copy_flag a = true then 1 else c) = 1 := by
          intro h1; split <;> omega
        have hlm : l = 1 → (if is_list_flag a = true then 1 else l) = 1 := by
          intro h1; split <;> omega
        obtain ⟨ih1, ih2⟩ := ih { st2 with i := st2.i + 1 } h _ _ n2 hst2 hc2 hl2
        constructor
        · intro st1 hok
          obtain ⟨c1, l1, n1, k1, k2, k3, k4, k5⟩ := ih1 st1 hok
          exact ⟨c1, l1, n1, k1, k2, k3, fun hh => k4 (hcm hh), fun hh => k5 (hlm hh)⟩
        · intro e st1 herr
          obtain ⟨c1, l1, n1, k1, k2, k3, k4, k5⟩ := ih2 e st1 herr
          exact ⟨c1, l1, n1, k1, k2, k3, fun hh => k4 (hcm hh), fun hh => k5 (hlm hh)⟩

/-- C19: when `parse` completes, the copy cell is 1 if an argument processed as a flag is
`-c` or has `--copy` as a prefix and otherwise has its initial value, likewise the list
cell with `-l` and `--list`; from any initial table a cell that is 1 stays 1; and after
any number of loop iterations, on normal progress as on exit, both cells are 0 or 1. -/
theorem C19_copy_list_cells (env : Env) (argv : List String) (st : ParseState)
    (hok : parse env parameters argv "" = .ok st) :
    defval_at st.params 1
      = (if (flag_args argv.tail).any is_copy_flag then 1 else defval_at parameters 1) ∧
    defval_at st.params 2
      = (if (flag_args argv.tail).any is_list_flag then 1 else defval_at parameters 2) ∧
    (∀ (h c l n : Nat) (dirname : String) (st1 : ParseState),
      parse env (table h c l n) argv dirname = .ok st1 →
        (c = 1 → defval_at st1.params 1 = 1) ∧ (l = 1 → defval_at st1.params 2 = 1)) ∧
    (∀ (fuel : Nat) (st1 : ParseState),
      (parse_loop env argv fuel { params := parameters, dirname := "", i := 1, fired := [] }
          = .ok st1 ∨
        ∃ e, parse_loop env argv fuel
          { params := parameters, dirname := "", i := 1, fired := [] } = .error (e, st1)) →
      (defval_at st1.params 1 = 0 ∨ defval_at st1.params 1 = 1) ∧
      (defval_at st1.params 2 = 0 ∨ defval_at st1.params 2 = 1)) := by
  obtain ⟨⟨n1, h1⟩, _⟩ := parse_loop_summary env argv argv.length
    { params := parameters, dirname := "", i := 1, fired := [] } st 0 0 0 10 rfl hok
    (by simp only; omega)
  have htail : argv.drop 1 = argv.tail := by cases argv <;> rfl
  simp only [htail] at h1
  refine ⟨?_, ?_, ?_, ?_⟩
  · rw [h1]; rfl
  · rw [h1]; rfl
  · intro h c l n dirname st1 hok1
    obtain ⟨⟨n2, k1⟩, _⟩ := parse_loop_summary env argv argv.length
      { params := table h c l n, dirname := dirname, i := 1, fired := [] } st1 h c l n rfl hok1
      (by simp only; omega)
    rw [k1]
    constructor
    · intro hc
      show (if _ then 1 else c) = 1
      split
      · rfl
      · exact hc
    · intro hl
      show (if _ then 1 else l) = 1
      split
      · rfl
      · exact hl
  · intro fuel st1 hcase
    have hcells := parse_loop_cells env argv fuel
      { params := parameters, dirname := "", i := 1, fired := [] } 0 0 0 10 rfl
      (by decide) (by decide)
    have hres : ∃ c1 l1 n1, st1.params = table 0 c1 l1 n1 ∧ c1 ≤ 1 ∧ l1 ≤ 1 := by
      rcases hcase with hcase | ⟨e, hcase⟩
      · obtain ⟨c1, l1, n2, k1, k2, k3, _, _⟩ := hcells.1 st1 hcase
        exact ⟨c1, l1, n2, k1, k2, k3⟩
      · obtain ⟨c1, l1, n2, k1, k2, k3, _, _⟩ := hcells.2 e st1 hcase
        exact ⟨c1, l1, n2, k1, k2, k3⟩
    obtain ⟨c1, l1, n2, k1, k2, k3⟩ := hres
    rw [k1]
    have e1 : defval_at (table 0 c1 l1 n2) 1 = c1 := rfl
    have e2 : defval_at (table 0 c1 l1 n2) 2 = l1 := rfl
    rw [e1, e2]
    omega

/-- C19 (witness): `-c` and a directory; the copy cell ends at 1, the list cell keeps its
initial value. -/
theorem C19_copy_list_cells_witness :
    (flag_args ["ransel", "-c", "d"].tail).any is_copy_flag = true ∧
    (flag_args ["ransel", "-c", "d"].tail).any is_list_flag = false ∧
    defval_at (table 0 1 0 10) 1
      = (if (flag_args ["ransel", "-c", "d"].tail).any is_copy_flag then 1
         else defval_at parameters 1) ∧
    defval_at (table 0 1 0 10) 2
      = (if (flag_args ["ransel", "-c", "d"].tail).any is_list_flag then 1
         else defval_at parameters 2) :=
  ⟨by decide, by decide,
   (C19_copy_list_cells (demo_env [] 0) ["ransel", "-c", "d"]
    { params := table 0 1 0 10, dirname := "d", i := 3, fired := [(1, 0)] } rfl).1,
   (C19_copy_list_cells (demo_env [] 0) ["ransel", "-c", "d"]
    { params := table 0 1 0 10, dirname := "d", i := 3, fired := [(1, 0)] } rfl).2.1⟩

/-! ## Wrap-around in `trailing_int` -/

theorem decimal_value_leading_zero (ds : List Char) :
    decimal_value ('0' :: ds) = decimal_value ds := by
  simp [decimal_value]

/-- A zero put in front of the digit run at the end of a token does not change what
`trailing_int` returns. -/
theorem trailing_int_leading_zero (pre s : String) (v : Nat) (h : is_numeral_of s.toList v)
    (hp : ∀ c, pre.toList.getLast? = some c → is_decimal c = false) :
    trailing_int (pre ++ ("0" ++ s)) = trailing_int (pre ++ s) := by
  have h0 : is_numeral_of ("0" ++ s).toList v := by
    obtain ⟨_, hall, hval⟩ := h
    have hl : ("0" ++ s).toList = '0' :: s.toList := by simp [String.toList]
    rw [hl]
    refine ⟨by simp, ?_, ?_⟩
    · intro c hc
      rcases List.mem_cons.1 hc with hc | hc
      · rw [hc]; decide
      · exact hall c hc
    · rw [decimal_value_leading_zero, hval]
  rw [trailing_int_eq, trailing_int_eq, digit_suffix_append pre s v h hp,
    digit_suffix_append pre ("0" ++ s) v h0 hp, h0.2.2, h.2.2]
  have e1 : ("0" ++ s).toList.isEmpty = false := by
    cases hs : ("0" ++ s).toList with
    | nil => exact absurd hs h0.1
    | cons x xs => rfl
  have e2 : s.toList.isEmpty = false := by
    cases hs : s.toList with
    | nil => exact absurd hs h.1
    | cons x xs => rfl
  rw [e1, e2]

/-- C20: with 32-bit wrap-around accumulators, on a string that holds a non-digit
character and ends in a decimal digit `trailing_int` returns `N mod 2^32`, where `N` is the
number denoted by the maximal run of digits at the end; the result is `N` itself exactly
when `N < 2^32`. -/
theorem C20_trailing_int_wraps (str : String)
    (_hnon : ∃ c ∈ str.toList, is_decimal c = false)
    (hlast : ∃ ch, str.toList.getLast? = some ch ∧ is_decimal ch = true) :
    trailing_int str = some (decimal_value (digit_suffix str) % 2 ^ 32) ∧
    (trailing_int str = some (decimal_value (digit_suffix str))
      ↔ decimal_value (digit_suffix str) < 2 ^ 32) := by
  have hne : (digit_suffix str).isEmpty = false := by
    cases hs : digit_suffix str with
    | nil =>
      obtain ⟨ch, hch, hd⟩ := hlast
      have := (digit_suffix_nil_iff str).1 hs ch hch
      rw [hd] at this
      exact absurd this (by decide)
    | cons x xs => rfl
  have heq : trailing_int str = some (decimal_value (digit_suffix str) % 2 ^ 32) := by
    rw [trailing_int_eq, hne]
    rfl
  refine ⟨heq, ?_⟩
  rw [heq, Option.some.injEq]
  constructor
  · intro h
    rw [← h]
    exact Nat.mod_lt _ (by norm_num)
  · intro h
    exact Nat.mod_eq_of_lt h

/-- C20 (witness): the run `4294967311` after `--count=` denotes 2^32 + 15 and is wrapped
to 15. -/
theorem C20_trailing_int_wraps_witness :
    decimal_value (digit_suffix "--count=4294967311") = 2 ^ 32 + 15 ∧
    trailing_int "--count=4294967311"
      = some (decimal_value (digit_suffix "--count=4294967311") % 2 ^ 32) ∧
    (trailing_int "--count=4294967311" = some (decimal_value (digit_suffix "--count=4294967311"))
      ↔ decimal_value (digit_suffix "--count=4294967311") < 2 ^ 32) :=
  ⟨by decide,
   C20_trailing_int_wraps "--count=4294967311" ⟨'-', by decide, by decide⟩
    ⟨'1', by decide, by decide⟩⟩

end Ransel
